import Mathlib

/-!
# SensorSensei protocol stack — verification of the specification against the source

Shallow embedding of the protocol core of the SensorSensei repository:

* `src/protocol/src/codec.rs` — the async byte codec (ULEB128/SLEB128/`u8`/`f32`
  primitives) is embedded as pure functions over an explicit decoder state.
  `u32`/`u64`/`i64` machine integers are represented by their bit patterns as
  `Nat` with explicit `% 2 ^ w` masking where the Rust code can overflow;
  `i64` is represented by its 64-bit two's-complement pattern.
* `src/protocol/src/app/v1.rs` — the version-1 application packets
  (`Packet`, `HandshakeStart`, `HandshakeEnd`, `SensorData`, `SensorValuePoint`,
  `SensorValue`) and their encode/decode functions.
* `src/protocol/src/link/v1.rs` — the authenticated link-layer framing
  (`LinkPacket::write` / `LinkPacket::read` / `sign_payload`).  The HMAC-SHA256
  primitive comes from the external `hmac`/`sha2` crates (not part of this
  repository), so it is kept as an explicit function parameter `mac`; every
  theorem about the link layer is proved for an arbitrary `mac`, hence in
  particular for HMAC-SHA256.
* `src/gateway-board/src/comm/link.rs` and `src/gateway-board/src/comm/app.rs`
  — session-id allocation and the gateway application-layer handlers.
* `src/sensor-board/src/comm/app.rs` — the sensor-side handshake guard.

A byte of the wire is a `Nat` below 256 (the Rust `u8`); reads reduce modulo
256 at the single point where a byte enters the model, mirroring the `u8` type
of `read_bytes` buffers.
-/

set_option maxHeartbeats 1000000

namespace SensorSensei

/-! ## Codec model (`src/protocol/src/codec.rs`)

The Rust `AsyncDecoder` is a stateful byte source: `read_bytes` fills a buffer
from the stream (all-or-nothing, like the test codec's implementation),
`current_offset()` counts bytes successfully read, and `decoding_error()` is
the sentinel error for malformed input.  We model the decoder state explicitly
and a decoding computation as a state-passing function that, on error, returns
the error kind together with the state at the point of failure (the Rust
decoder object survives the error; its offset is observable afterwards). -/

/-- Decoder state: the remaining input bytes and `current_offset()`. -/
structure DecSt where
  input : List Nat
  offset : Nat
deriving Repr, DecidableEq

/-- The two error sources of the decoder:
`eof` for a `read_bytes` call that cannot be satisfied,
`decoding` for `decoding_error()`. -/
inductive DecErr where
  | eof
  | decoding
deriving Repr, DecidableEq

/-- A decoding computation: consumes the state, returns a value and the new
state, or an error together with the state at the failure point. -/
def DecM (α : Type) : Type := DecSt → Except (DecErr × DecSt) (α × DecSt)

instance : Monad DecM where
  pure a := fun s => .ok (a, s)
  bind m f := fun s =>
    match m s with
    | .error e => .error e
    | .ok (a, s') => f a s'

/-- `read_bytes` with a one-byte buffer (`let mut byte = [0u8; 1]`).
The stream consists of `u8` values: the byte entering the model is reduced
modulo 256 once, here. -/
def readByte : DecM Nat := fun s =>
  match s.input with
  | [] => .error (.eof, s)
  | b :: rest => .ok (b % 256, ⟨rest, s.offset + 1⟩)

/-- `read_bytes` with an `n`-byte buffer: fills the whole buffer or fails
without consuming (the test codec's `read_bytes` is all-or-nothing). -/
def readBytesN (n : Nat) : DecM (List Nat) := fun s =>
  if n ≤ s.input.length then
    .ok ((s.input.take n).map (· % 256), ⟨s.input.drop n, s.offset + n⟩)
  else
    .error (.eof, s)

/-- `AsyncDecoder::read_discard(n)`: reads and discards `n` bytes in chunks of
at most 16 (`let mut buf = [0u8; 16]`). -/
def readDiscard (n : Nat) : DecM Unit := fun s =>
  if h : n = 0 then .ok ((), s)
  else
    match readBytesN (min n 16) s with
    | .error e => .error e
    | .ok (_, s') => readDiscard (n - min n 16) s'
termination_by n
decreasing_by
  have h1 : 1 ≤ min n 16 := by
    have : 1 ≤ n := Nat.one_le_iff_ne_zero.mpr h
    exact le_min this (by norm_num)
  omega

/-- `decoding_error()` as a failing computation. -/
def decodingError {α : Type} : DecM α := fun s => .error (.decoding, s)

/-! ### ULEB128 (`uleb128_encoding!` macro, instantiated at `u32; 5` and
`u64; 10`)

Encoding (`to_leb128`): emit the low 7 bits with the continuation bit `0x80`
while more than `0x7f` remains, then the final byte.  On unsigned integers
`val & 0x7f` is `val % 0x80` and `val >> 7` is `val / 0x80`. -/

/-- `to_leb128` of an unsigned integer. -/
def ulebEncode (v : Nat) : List Nat :=
  if v ≤ 0x7f then [v]
  else (0x80 + v % 0x80) :: ulebEncode (v / 0x80)
termination_by v
decreasing_by
  exact Nat.div_lt_self (by omega) (by norm_num)

/-- The decoding loop of the `uleb128_encoding!` macro: at most `fuel` bytes
are read (`for _ in 0..$n`); `w = 2 ^ 32` or `2 ^ 64` is the modulus of the
target type, applied to the shifted contribution exactly where the Rust shift
`((byte & 0x7f) as $type) << shift` truncates.  After `fuel` bytes the loop
falls through to `Ok(val)` even if the last byte still had its continuation
bit set. -/
def ulebDecodeLoop (w : Nat) : Nat → Nat → Nat → DecM Nat
  | 0, val, _ => fun s => .ok (val, s)
  | fuel + 1, val, shift => fun s =>
    match readByte s with
    | .error e => .error e
    | .ok (b, s') =>
      let val' := val ||| (b % 0x80) <<< shift % w
      if b &&& 0x80 = 0 then .ok (val', s')
      else ulebDecodeLoop w fuel val' (shift + 7) s'

/-- `<u32 as AsyncDecode>::decode`: ULEB128, at most 5 bytes. -/
def decodeU32 : DecM Nat := ulebDecodeLoop (2 ^ 32) 5 0 0

/-- `<u64 as AsyncDecode>::decode`: ULEB128, at most 10 bytes. -/
def decodeU64 : DecM Nat := ulebDecodeLoop (2 ^ 64) 10 0 0

/-! ### SLEB128 (`sleb128_encoding!` macro, instantiated at `i64; 10`)

The `i64` is represented by its 64-bit two's-complement pattern
`p < 2 ^ 64`; the arithmetic shift `val >> 7` becomes `sar64by7`. -/

/-- Arithmetic right shift by 7 of a 64-bit two's-complement pattern. -/
def sar64by7 (p : Nat) : Nat :=
  p / 0x80 + (if p < 2 ^ 63 then 0 else 2 ^ 64 - 2 ^ 57)

/-- The `to_leb128` loop of the `sleb128_encoding!` macro on the 64-bit
pattern.  `byte = (val & 0x7f) as u8` is `p % 0x80`; the stop test compares
`val` (after the shift) against `0` and `-1` (pattern `2 ^ 64 - 1`) and the
sign bit `byte & 0x40`.  The Rust loop writes into a 10-byte buffer; `fuel`
bounds the recursion at that buffer size (never reached before the stop test
fires for a 64-bit value, as the round-trip theorem shows). -/
def slebEncodeLoop : Nat → Nat → List Nat
  | 0, _ => []
  | fuel + 1, p =>
    let b := p % 0x80
    let p' := sar64by7 p
    if (p' = 0 ∧ b &&& 0x40 = 0) ∨ (p' = 2 ^ 64 - 1 ∧ b &&& 0x40 ≠ 0) then [b]
    else (0x80 + b) :: slebEncodeLoop fuel p'

/-- `to_leb128` of an `i64` given as its 64-bit pattern. -/
def slebEncode (p : Nat) : List Nat := slebEncodeLoop 10 p

/-- The decoding loop of the `sleb128_encoding!` macro: like the unsigned
loop but with sign extension `val |= (!0 as i64) << shift` (pattern
`2 ^ 64 - 2 ^ shift`) when the final byte has bit `0x40` set and the
accumulated shift is still below 64. -/
def slebDecodeLoop : Nat → Nat → Nat → DecM Nat
  | 0, val, _ => fun s => .ok (val, s)
  | fuel + 1, val, shift => fun s =>
    match readByte s with
    | .error e => .error e
    | .ok (b, s') =>
      let val' := val ||| (b % 0x80) <<< shift % 2 ^ 64
      let shift' := shift + 7
      if b &&& 0x80 = 0 then
        if shift' < 64 ∧ b &&& 0x40 ≠ 0 then
          .ok (val' ||| (2 ^ 64 - 2 ^ shift'), s')
        else
          .ok (val', s')
      else slebDecodeLoop fuel val' shift' s'

/-- `<i64 as AsyncDecode>::decode`, on 64-bit patterns. -/
def decodeI64 : DecM Nat := slebDecodeLoop 10 0 0

/-! ### `u8` and `f32` primitives -/

/-- `<u8 as AsyncEncode>::encode`: `to_le_bytes` of a `u8` is the byte
itself. -/
def encodeU8 (v : Nat) : List Nat := [v % 256]

/-- `<u8 as AsyncDecode>::decode`. -/
def decodeU8 : DecM Nat := readByte

/-- `<f32 as AsyncEncode>::encode`: the IEEE-754 bit pattern `p < 2 ^ 32` as
4 little-endian bytes (`to_le_bytes`).  The codec never interprets the float
arithmetically, so the pattern is the faithful representation. -/
def encodeF32 (p : Nat) : List Nat :=
  [p % 256, p / 2 ^ 8 % 256, p / 2 ^ 16 % 256, p / 2 ^ 24 % 256]

/-- `<f32 as AsyncDecode>::decode`: read 4 bytes, `from_le_bytes`. -/
def decodeF32 : DecM Nat := fun s =>
  match readBytesN 4 s with
  | .error e => .error e
  | .ok (bs, s') =>
    .ok (bs.getD 0 0 + bs.getD 1 0 * 2 ^ 8 + bs.getD 2 0 * 2 ^ 16 + bs.getD 3 0 * 2 ^ 24, s')

/-! ## Application layer v1 (`src/protocol/src/app/v1.rs`)

Field values carry their Rust types' ranges as side conditions in the
theorems (`u8` fields below 256, `u32` below `2 ^ 32`, …); `f32` fields are
IEEE-754 bit patterns, `i64` fields 64-bit two's-complement patterns. -/

/-- `SensorValue`: tagged union with a ULEB128 `u32` kind discriminant. -/
inductive SensorValue where
  | temperature (bits : Nat)
  | pressure (bits : Nat)
  | altitude (bits : Nat)
  | airQuality (bits : Nat)
  | unknown (id : Nat) (value_len : Nat)
deriving Repr, DecidableEq

/-- `SensorValue::id()`: the `repr(u32)` discriminant. -/
def SensorValue.kindId : SensorValue → Nat
  | .temperature _ => 0
  | .pressure _ => 1
  | .altitude _ => 2
  | .airQuality _ => 3
  | .unknown _ _ => 2 ^ 32 - 1

/-- `SensorValuePoint { value, time_offset }` (`time_offset` is an `i64`
pattern). -/
structure SensorValuePoint where
  value : SensorValue
  time_offset : Nat
deriving Repr, DecidableEq

/-- `Packet`: the five version-1 packet variants. -/
inductive Packet where
  | handshakeStart (major minor : Nat)
  | handshakeEnd (major minor epoch : Nat)
  | ack
  | sensorData (count : Nat)
  | resetConnection
deriving Repr, DecidableEq

/-- `Packet::id()`: the `repr(u8)` discriminant. -/
def Packet.tagId : Packet → Nat
  | .handshakeStart _ _ => 0
  | .handshakeEnd _ _ _ => 1
  | .ack => 2
  | .sensorData _ => 3
  | .resetConnection => 4

/-- `<&SensorValue as AsyncEncode>::encode`: the kind as ULEB128 `u32`, then
for the known kinds the tuple `(4u32, value)` (declared length 4 and the
`f32` bytes), for `Unknown` just the declared `value_len`. -/
def SensorValue.encode : SensorValue → List Nat
  | .temperature bits => ulebEncode 0 ++ ulebEncode 4 ++ encodeF32 bits
  | .pressure bits => ulebEncode 1 ++ ulebEncode 4 ++ encodeF32 bits
  | .altitude bits => ulebEncode 2 ++ ulebEncode 4 ++ encodeF32 bits
  | .airQuality bits => ulebEncode 3 ++ ulebEncode 4 ++ encodeF32 bits
  | .unknown id value_len => ulebEncode (id % 2 ^ 32) ++ ulebEncode (value_len % 2 ^ 32)

/-- `<SensorValue as AsyncDecode>::decode`: read the kind and the declared
`value_len`, decode the typed body, then subtract the bytes the body consumed
from `value_len` (`checked_sub`: error if the body overran the declared
length) and discard the remainder. -/
def SensorValue.decode : DecM SensorValue := fun s =>
  match decodeU32 s with
  | .error e => .error e
  | .ok (kind, s1) =>
    match decodeU32 s1 with
    | .error e => .error e
    | .ok (value_len, s2) =>
      -- `let pos: usize = decoder.current_offset();`
      let pos := s2.offset
      let body : Except (DecErr × DecSt) (SensorValue × DecSt) :=
        match kind with
        | 0 => (decodeF32 s2).map (fun (b, s') => (.temperature b, s'))
        | 1 => (decodeF32 s2).map (fun (b, s') => (.pressure b, s'))
        | 2 => (decodeF32 s2).map (fun (b, s') => (.altitude b, s'))
        | 3 => (decodeF32 s2).map (fun (b, s') => (.airQuality b, s'))
        | id => .ok (.unknown id value_len, s2)
      match body with
      | .error e => .error e
      | .ok (value, s3) =>
        -- `current_offset().wrapping_sub(pos)`: offsets are monotone here
        let actual_value_len := s3.offset - pos
        if actual_value_len ≤ value_len then
          match readDiscard (value_len - actual_value_len) s3 with
          | .error e => .error e
          | .ok (_, s4) => .ok (value, s4)
        else
          -- `checked_sub` underflow: "the sender is lying"
          .error (.decoding, s3)

/-- `<SensorValuePoint as AsyncEncode>::encode`:
`encoder.emit((self.time_offset, self.value))`. -/
def SensorValuePoint.encode (p : SensorValuePoint) : List Nat :=
  slebEncode p.time_offset ++ p.value.encode

/-- `<SensorValuePoint as AsyncDecode>::decode`: `time_offset` then
`value`. -/
def SensorValuePoint.decode : DecM SensorValuePoint := fun s =>
  match decodeI64 s with
  | .error e => .error e
  | .ok (time_offset, s1) =>
    match SensorValue.decode s1 with
    | .error e => .error e
    | .ok (value, s2) => .ok (⟨value, time_offset⟩, s2)

/-- `<HandshakeStart as AsyncDecode>::decode`: `(major, minor, tail_len)`
then discard `tail_len` bytes (forward compatibility).  Returns
`(major, minor)`. -/
def decodeHandshakeStart : DecM (Nat × Nat) := fun s =>
  match readByte s with
  | .error e => .error e
  | .ok (major, s1) =>
    match readByte s1 with
    | .error e => .error e
    | .ok (minor, s2) =>
      match decodeU32 s2 with
      | .error e => .error e
      | .ok (tail_len, s3) =>
        match readDiscard tail_len s3 with
        | .error e => .error e
        | .ok (_, s4) => .ok ((major, minor), s4)

/-- `<HandshakeEnd as AsyncDecode>::decode`: `major`, `minor`, `tail_len`;
iff `major == 1` an `epoch: u64` is read out of the tail (with a
`checked_sub` guard against the declared length), otherwise the epoch is 0;
the remaining `tail_len.min(u32::MAX)` bytes are discarded.  Returns
`(major, minor, epoch)`. -/
def decodeHandshakeEnd : DecM (Nat × Nat × Nat) := fun s =>
  match readByte s with
  | .error e => .error e
  | .ok (major, s1) =>
    match readByte s1 with
    | .error e => .error e
    | .ok (minor, s2) =>
      match decodeU32 s2 with
      | .error e => .error e
      | .ok (tail_len, s3) =>
        let rest : Except (DecErr × DecSt) ((Nat × Nat) × DecSt) :=
          if major = 1 then
            let pos := s3.offset
            match decodeU64 s3 with
            | .error e => .error e
            | .ok (epoch, s4) =>
              let epoch_len := s4.offset - pos
              if epoch_len ≤ tail_len then .ok ((tail_len - epoch_len, epoch), s4)
              else .error (.decoding, s4)
          else .ok ((tail_len, 0), s3)
        match rest with
        | .error e => .error e
        | .ok ((tail_len', epoch), s5) =>
          match readDiscard (min tail_len' (2 ^ 32 - 1)) s5 with
          | .error e => .error e
          | .ok (_, s6) => .ok ((major, minor, epoch), s6)

/-- `<&Packet as AsyncEncode>::encode`: the 1-byte discriminant, then the
variant payload.  `HandshakeStart` emits `(major, minor, 0u32)`;
`HandshakeEnd` emits `(major, minor, tail_len)` where `tail_len` is the
ULEB128 length of the epoch, followed by the encoded epoch. -/
def Packet.encode : Packet → List Nat
  | .handshakeStart major minor =>
    encodeU8 0 ++ (encodeU8 major ++ encodeU8 minor ++ ulebEncode 0)
  | .handshakeEnd major minor epoch =>
    let tail := ulebEncode epoch
    encodeU8 1 ++ (encodeU8 major ++ encodeU8 minor ++ ulebEncode tail.length ++ tail)
  | .ack => encodeU8 2
  | .sensorData count => encodeU8 3 ++ encodeU8 count
  | .resetConnection => encodeU8 4

/-- `<Packet as AsyncDecode>::decode`: dispatch on the 1-byte discriminant;
an unknown discriminant is `decoding_error()`. -/
def Packet.decode : DecM Packet := fun s =>
  match readByte s with
  | .error e => .error e
  | .ok (id, s1) =>
    match id with
    | 0 => (decodeHandshakeStart s1).map fun ((major, minor), s') =>
        (.handshakeStart major minor, s')
    | 1 => (decodeHandshakeEnd s1).map fun ((major, minor, epoch), s') =>
        (.handshakeEnd major minor epoch, s')
    | 2 => .ok (.ack, s1)
    | 3 =>
      match readByte s1 with
      | .error e => .error e
      | .ok (count, s') => .ok (.sensorData count, s')
    | 4 => .ok (.resetConnection, s1)
    | _ => .error (.decoding, s1)

/-! ## Link layer v1 (`src/protocol/src/link/v1.rs`)

The cryptographic primitive `Hmac::<Sha256>` comes from the external `hmac`
and `sha2` crates, which are not part of this repository; following the usual
discipline for hash functions it is an explicit parameter
`mac : List Nat → List Nat → List Nat` (payload, key ↦ 32-byte digest) and
every theorem holds for an arbitrary `mac`, hence for HMAC-SHA256 in
particular. -/

/-- `LinkPhase`. -/
inductive LinkPhase where
  | handshake
  | data
deriving Repr, DecidableEq

/-- `LinkPhase::to_bits`. -/
def LinkPhase.toBits : LinkPhase → Nat
  | .handshake => 0b10
  | .data => 0b00

/-- `LinkPhase::from_bits`: `0b10` is `Handshake`, anything else `Data`. -/
def LinkPhase.fromBits (bits : Nat) : LinkPhase :=
  if bits = 0b10 then .handshake else .data

/-- `LinkPacket::sign_payload`: the first 5 bytes of the HMAC digest,
zero-extended to 8 bytes and read big-endian (`u64::from_be_bytes`), so the
low 24 bits of the result are zero.  Digest bytes are `u8`. -/
def signPayload (mac : List Nat → List Nat → List Nat)
    (payload sig_key : List Nat) : Nat :=
  let sig_bytes := mac payload sig_key
  (sig_bytes.getD 0 0 % 256) * 2 ^ 56 + (sig_bytes.getD 1 0 % 256) * 2 ^ 48 +
    (sig_bytes.getD 2 0 % 256) * 2 ^ 40 + (sig_bytes.getD 3 0 % 256) * 2 ^ 32 +
    (sig_bytes.getD 4 0 % 256) * 2 ^ 24

/-- `LinkPacket::write`: the 5-byte header (top 5 bytes of
`(header_meta as u64) << 56 | sig_bits >> 6`, big-endian) followed by the
payload verbatim, flushed as one PHY frame.  `header_meta` is below 256 and
`sig_bits` below `2 ^ 64`, so no `u64` operation here overflows. -/
def LinkPacket.write (mac : List Nat → List Nat → List Nat) (phase : LinkPhase)
    (id : Nat) (payload sig_key : List Nat) : List Nat :=
  let action_bits := phase.toBits
  let header_meta := action_bits <<< 6 ||| (id &&& 0b1111) <<< 2
  let sig_bits := signPayload mac payload sig_key
  let header := header_meta <<< 56 ||| sig_bits >>> 6
  [header / 2 ^ 56 % 256, header / 2 ^ 48 % 256, header / 2 ^ 40 % 256,
    header / 2 ^ 32 % 256, header / 2 ^ 24 % 256] ++ payload

/-- One iteration of the loop in `LinkPacket::read`, applied to the frame in
the PHY receive buffer: `none` means the frame is dropped (too small, or the
recomputed signature's high 34 bits disagree with the transmitted ones) and
the loop keeps listening; `some (phase, id)` is the accepted header.  The
frame bytes are `u8`; the payload slice `bytes[5..]` is handed to the HMAC
verbatim. -/
def LinkPacket.readFrame (mac : List Nat → List Nat → List Nat)
    (sig_key bytes : List Nat) : Option (LinkPhase × Nat) :=
  if bytes.length < 6 then none
  else
    let header_meta := bytes.getD 0 0 % 256
    let sig_bits :=
      ((bytes.getD 0 0 % 256) * 2 ^ 56 + (bytes.getD 1 0 % 256) * 2 ^ 48 +
        (bytes.getD 2 0 % 256) * 2 ^ 40 + (bytes.getD 3 0 % 256) * 2 ^ 32 +
        (bytes.getD 4 0 % 256) * 2 ^ 24) <<< 6 % 2 ^ 64
    let payload := bytes.drop 5
    let actual_sig := signPayload mac payload sig_key &&& 0xffffffffc0000000
    if actual_sig = sig_bits then
      some (LinkPhase.fromBits (header_meta >>> 6), header_meta >>> 2 &&& 0xf)
    else none

/-- `LinkPacket::get_payload`: `&phy.rx_buffer()[5..]`. -/
def LinkPacket.getPayload (bytes : List Nat) : List Nat := bytes.drop 5

/-! ## Gateway link layer (`src/gateway-board/src/comm/link.rs`) -/

/-- `GatewayLinkLayer::new` starts with `curr_sensor_id = SensorBoardId(15)`. -/
def gatewayInitialSensorId : Nat := 15

/-- The id update in `handle_inbound_handshake`:
`SensorBoardId((self.curr_sensor_id.0.wrapping_add(1)) & 0x0F)`; the freshly
incremented id is the one issued in the handshake reply. -/
def gatewayStepSensorId (id : Nat) : Nat := (id + 1) % 256 &&& 0x0F

/-- The id issued on the `n`-th accepted sensor handshake (0-based) after the
initial state: each accepted handshake increments before issuing. -/
def issuedSensorId : Nat → Nat
  | 0 => gatewayStepSensorId gatewayInitialSensorId
  | n + 1 => gatewayStepSensorId (issuedSensorId n)

/-! ## Application layers (`src/gateway-board/src/comm/app.rs`,
`src/sensor-board/src/comm/app.rs`) -/

/-- `PROTOCOL_VERSION_MAJOR` (both boards). -/
def PROTOCOL_VERSION_MAJOR : Nat := 1

/-- `PROTOCOL_VERSION_MINOR` (both boards). -/
def PROTOCOL_VERSION_MINOR : Nat := 0

/-- `GatewayAppLayerError` (the `Link` wrapper of PHY errors is not needed by
any claim). -/
inductive GatewayAppError where
  | decoding
  | unexpectedPacket (id : Nat)
  | incompatibleProtocol (major minor : Nat)
  | timeout
deriving Repr, DecidableEq

/-- `AppLayerPhase` of the gateway. -/
inductive AppLayerPhase where
  | initial
  | handshake
  | uplink
deriving Repr, DecidableEq

/-- `app_on_handshake_start`: reject with `IncompatibleProtocol` iff
`pkt.major != PROTOCOL_VERSION_MAJOR` (the minor is not inspected);
on success reply with `HandshakeEnd { major: 1, minor: 0, epoch }` (the
emitted packet bytes are returned). -/
def app_on_handshake_start (major minor epoch : Nat) :
    Except GatewayAppError (List Nat) :=
  if major ≠ PROTOCOL_VERSION_MAJOR then
    .error (.incompatibleProtocol major minor)
  else
    .ok (Packet.encode (.handshakeEnd PROTOCOL_VERSION_MAJOR PROTOCOL_VERSION_MINOR epoch))

/-- The `Packet::HandshakeStart` arm of the gateway's `comm_cycle`: on success
the phase becomes `Uplink`, on failure it becomes `Handshake` and the error is
reported. -/
def gatewayHandshakeCycle (major minor epoch : Nat) :
    AppLayerPhase × Option GatewayAppError :=
  match app_on_handshake_start major minor epoch with
  | .ok _ => (.uplink, none)
  | .error e => (.handshake, some e)

/-- The gateway's value sink (`ValueSender`, a bounded zero-copy channel):
`try_send` yields a slot while fewer than `cap` values are queued, otherwise
the decoded value is dropped with a warning. -/
structure ValueSink where
  cap : Nat
  vals : List SensorValuePoint
deriving Repr, DecidableEq

/-- One loop iteration's effect on the sink: publish if a slot is free,
otherwise drop. -/
def ValueSink.push (snk : ValueSink) (v : SensorValuePoint) : ValueSink :=
  if snk.vals.length < snk.cap then ⟨snk.cap, snk.vals ++ [v]⟩ else snk

/-- The `for _ in 0..pkt.count` loop of `app_on_sensor_data`: each iteration
decodes one `SensorValuePoint` from the stream (whether or not the sink has a
free slot) and publishes or drops it. -/
def sensorDataLoop : Nat → ValueSink → DecSt →
    Except (DecErr × DecSt) (ValueSink × DecSt)
  | 0, snk, s => .ok (snk, s)
  | n + 1, snk, s =>
    match SensorValuePoint.decode s with
    | .error e => .error e
    | .ok (v, s') => sensorDataLoop n (snk.push v) s'

/-- `app_on_sensor_data`: decode `count` value points, then emit exactly one
`Ack` (the list of emitted packet byte-strings is returned alongside the
sink). -/
def app_on_sensor_data (count : Nat) (snk : ValueSink) (s : DecSt) :
    Except (DecErr × DecSt) ((ValueSink × List (List Nat)) × DecSt) :=
  match sensorDataLoop count snk s with
  | .error e => .error e
  | .ok (snk', s') => .ok ((snk', [Packet.encode .ack]), s')

/-- `SensorBoardAppLayerError`. -/
inductive SensorAppError where
  | decoding
  | unexpectedPacket (id : Nat)
  | incompatibleProtocol (major minor : Nat)
  | timeout
deriving Repr, DecidableEq

/-- The `HandshakeEnd` arms of `app_initiate_handshake` on the sensor board:
the guard `major != PROTOCOL_VERSION_MAJOR || minor != PROTOCOL_VERSION_MINOR`
fails the session with `IncompatibleProtocol`; otherwise the epoch is adopted
and the cycle proceeds to `Uplink`. -/
def sensor_on_handshake_end (major minor epoch : Nat) :
    Except SensorAppError Nat :=
  if major ≠ PROTOCOL_VERSION_MAJOR ∨ minor ≠ PROTOCOL_VERSION_MINOR then
    .error (.incompatibleProtocol major minor)
  else
    .ok epoch

/-! ## Generic byte-level and bit-level helpers -/

set_option maxRecDepth 8000

theorem and_0x80_eq_zero_iff : ∀ b < 256, (b &&& 0x80 = 0 ↔ b < 128) := by decide

theorem and_0x40_eq_zero_iff : ∀ b < 128, (b &&& 0x40 = 0 ↔ b < 64) := by decide

/-- Disjoint or is addition: a value below `2 ^ k` or-ed with a multiple of
`2 ^ k`. -/
theorem or_mul_two_pow_eq_add {a : Nat} {k : Nat} (b : Nat) (ha : a < 2 ^ k) :
    a ||| b * 2 ^ k = a + b * 2 ^ k := by
  have h := Nat.mul_add_lt_is_or ha b
  calc a ||| b * 2 ^ k = 2 ^ k * b ||| a := by rw [Nat.or_comm, Nat.mul_comm]
    _ = 2 ^ k * b + a := h.symm
    _ = a + b * 2 ^ k := by ring

theorem readByte_cons (b : Nat) (rest : List Nat) (off : Nat) :
    readByte ⟨b :: rest, off⟩ = .ok (b % 256, ⟨rest, off + 1⟩) := rfl

theorem readByte_eof (off : Nat) : readByte ⟨[], off⟩ = .error (.eof, ⟨[], off⟩) := rfl

theorem readBytesN_append (bs rest : List Nat) (off : Nat) :
    readBytesN bs.length ⟨bs ++ rest, off⟩ =
      .ok (bs.map (· % 256), ⟨rest, off + bs.length⟩) := by
  simp [readBytesN]

theorem readBytesN_ok (n : Nat) (s : DecSt) (h : n ≤ s.input.length) :
    readBytesN n s =
      .ok ((s.input.take n).map (· % 256), ⟨s.input.drop n, s.offset + n⟩) := by
  simp [readBytesN, h]

theorem readDiscard_ok (n : Nat) : ∀ s : DecSt, n ≤ s.input.length →
    readDiscard n s = .ok ((), ⟨s.input.drop n, s.offset + n⟩) := by
  induction n using Nat.strong_induction_on with
  | _ n ih =>
    intro s h
    unfold readDiscard
    split
    · rename_i h0
      subst h0
      simp
    · rename_i h0
      have hm : 1 ≤ min n 16 := by omega
      have hmn : min n 16 ≤ n := Nat.min_le_left n 16
      simp only [readBytesN_ok (min n 16) s (by omega)]
      rw [ih (n - min n 16) (by omega) ⟨s.input.drop (min n 16), s.offset + min n 16⟩
        (by simp; omega)]
      simp [List.drop_drop]
      omega

/-! ## ULEB128 round trip -/

theorem ulebEncode_length (k : Nat) : ∀ v, v < 128 ^ (k + 1) →
    (ulebEncode v).length ≤ k + 1 := by
  induction k with
  | zero =>
    intro v hv
    unfold ulebEncode
    rw [if_pos (by simpa using Nat.lt_succ_iff.mp hv)]
    simp
  | succ k ih =>
    intro v hv
    unfold ulebEncode
    split
    · simp
    · have hd : v / 128 < 128 ^ (k + 1) := by
        rw [Nat.div_lt_iff_lt_mul (by norm_num)]
        calc v < 128 ^ (k + 1 + 1) := hv
          _ = 128 ^ (k + 1) * 128 := by ring
      have := ih (v / 128) hd
      simp only [List.length_cons]
      omega

/-- The central ULEB128 lemma: decoding the encoding of `v`, shifted into an
accumulator, adds `v * 2 ^ shift` and consumes exactly the encoding. -/
theorem uleb_loop_roundtrip (w : Nat) :
    ∀ v fuel val shift (rest : List Nat) (off : Nat),
    (ulebEncode v).length ≤ fuel → val < 2 ^ shift → v * 2 ^ shift < w →
    ulebDecodeLoop w fuel val shift ⟨ulebEncode v ++ rest, off⟩ =
      .ok (val + v * 2 ^ shift, ⟨rest, off + (ulebEncode v).length⟩) := by
  intro v
  induction v using Nat.strong_induction_on with
  | _ v ih =>
    intro fuel val shift rest off hlen hval hw
    by_cases hv : v ≤ 127
    · rw [ulebEncode, if_pos hv] at hlen ⊢
      obtain ⟨f, rfl⟩ : ∃ f, fuel = f + 1 := ⟨fuel - 1, by simp at hlen; omega⟩
      simp only [ulebDecodeLoop, List.cons_append, readByte_cons]
      rw [show v % 256 = v by omega]
      rw [if_pos ((and_0x80_eq_zero_iff v (by omega)).mpr (by omega))]
      rw [show v % 128 = v by omega, Nat.shiftLeft_eq,
        Nat.mod_eq_of_lt hw, or_mul_two_pow_eq_add v hval]
      simp
    · rw [ulebEncode, if_neg hv] at hlen ⊢
      simp only [List.length_cons] at hlen
      obtain ⟨f, rfl⟩ : ∃ f, fuel = f + 1 := ⟨fuel - 1, by omega⟩
      simp only [ulebDecodeLoop, List.cons_append, readByte_cons]
      rw [Nat.mod_eq_of_lt (show 128 + v % 128 < 256 by omega)]
      rw [if_neg (by
        intro hcontra
        have := (and_0x80_eq_zero_iff (128 + v % 128) (by omega)).mp hcontra
        omega)]
      rw [show (128 + v % 128) % 128 = v % 128 by omega, Nat.shiftLeft_eq]
      have hmodlt : v % 128 * 2 ^ shift < w :=
        lt_of_le_of_lt (Nat.mul_le_mul_right _ (Nat.mod_le v 128)) hw
      rw [Nat.mod_eq_of_lt hmodlt, or_mul_two_pow_eq_add (v % 128) hval]
      have e7 : (2 : Nat) ^ (shift + 7) = 2 ^ shift * 128 := by
        rw [pow_add]; norm_num
      have hq : v / 128 * 2 ^ (shift + 7) ≤ v * 2 ^ shift := by
        rw [e7, show v / 128 * (2 ^ shift * 128) = v / 128 * 128 * 2 ^ shift by ring]
        exact Nat.mul_le_mul_right _ (Nat.div_mul_le_self v 128)
      rw [ih (v / 128) (Nat.div_lt_self (by omega) (by norm_num)) f
        (val + v % 128 * 2 ^ shift) (shift + 7) rest (off + 1) (by omega)
        (by
          have h127 : v % 128 * 2 ^ shift ≤ 127 * 2 ^ shift :=
            Nat.mul_le_mul_right _ (by omega)
          omega)
        (lt_of_le_of_lt hq hw)]
      have hsum : val + v % 128 * 2 ^ shift + v / 128 * 2 ^ (shift + 7) =
          val + v * 2 ^ shift := by
        have hv' : v % 128 + v / 128 * 128 = v := Nat.mod_add_div' v 128
        calc val + v % 128 * 2 ^ shift + v / 128 * 2 ^ (shift + 7)
            = val + (v % 128 + v / 128 * 128) * 2 ^ shift := by rw [e7]; ring
          _ = val + v * 2 ^ shift := by rw [hv']
      rw [hsum]
      simp
      omega

/-- `u32` decode inverts encode and advances the offset by the byte length of
the encoding. -/
theorem decodeU32_roundtrip (v : Nat) (hv : v < 2 ^ 32) (rest : List Nat) (off : Nat) :
    decodeU32 ⟨ulebEncode v ++ rest, off⟩ =
      .ok (v, ⟨rest, off + (ulebEncode v).length⟩) := by
  have hlen : (ulebEncode v).length ≤ 5 :=
    ulebEncode_length 4 v (by norm_num at hv ⊢; omega)
  have := uleb_loop_roundtrip (2 ^ 32) v 5 0 0 rest off hlen (by norm_num)
    (by simpa using hv)
  simpa [decodeU32] using this

/-- `u64` decode inverts encode and advances the offset by the byte length of
the encoding. -/
theorem decodeU64_roundtrip (v : Nat) (hv : v < 2 ^ 64) (rest : List Nat) (off : Nat) :
    decodeU64 ⟨ulebEncode v ++ rest, off⟩ =
      .ok (v, ⟨rest, off + (ulebEncode v).length⟩) := by
  have hlen : (ulebEncode v).length ≤ 10 :=
    ulebEncode_length 9 v (by norm_num at hv ⊢; omega)
  have := uleb_loop_roundtrip (2 ^ 64) v 10 0 0 rest off hlen (by norm_num)
    (by simpa using hv)
  simpa [decodeU64] using this

/-! ## SLEB128 round trip

The loop invariant needs the arithmetic right shift of the original pattern
by an arbitrary multiple of 7; `asr64` generalises `sar64by7`. -/

/-- Arithmetic right shift by `k ≤ 64` of a 64-bit two's-complement
pattern. -/
def asr64 (p k : Nat) : Nat :=
  if p < 2 ^ 63 then p / 2 ^ k else p / 2 ^ k + (2 ^ 64 - 2 ^ (64 - k))

theorem asr64_zero (p : Nat) : asr64 p 0 = p := by
  unfold asr64
  split <;> simp

theorem asr64_lt (P k : Nat) (hP : P < 2 ^ 64) (hk : k ≤ 64) :
    asr64 P k < 2 ^ 64 := by
  unfold asr64
  have h64 : (2 : Nat) ^ (64 - k) * 2 ^ k = 2 ^ 64 := by
    rw [← pow_add]; congr 1; omega
  have h1 : P / 2 ^ k < 2 ^ (64 - k) := by
    rw [Nat.div_lt_iff_lt_mul (Nat.pos_pow_of_pos k (by norm_num)), h64]
    exact hP
  have h2 : (2 : Nat) ^ (64 - k) ≤ 2 ^ 64 := Nat.pow_le_pow_right (by norm_num) (by omega)
  split
  · have : P / 2 ^ k ≤ P := Nat.div_le_self _ _
    omega
  · omega

theorem asr64_step (P s : Nat) (hP : P < 2 ^ 64) (hs : s ≤ 56) :
    sar64by7 (asr64 P s) = asr64 P (s + 7) := by
  have h7 : (2 : Nat) ^ (s + 7) = 2 ^ s * 128 := by rw [pow_add]; norm_num
  have hds : (2 : Nat) ^ (64 - s) = 128 * 2 ^ (57 - s) := by
    rw [show 64 - s = 7 + (57 - s) by omega, pow_add]; norm_num
  have hd57 : (2 : Nat) ^ (57 - s) ≤ 2 ^ 57 := Nat.pow_le_pow_right (by norm_num) (by omega)
  have hdiv7 : P / 2 ^ s / 128 = P / 2 ^ (s + 7) := by
    rw [Nat.div_div_eq_div_mul, ← h7]
  unfold sar64by7 asr64
  by_cases h : P < 2 ^ 63
  · rw [if_pos h, if_pos h, if_pos (lt_of_le_of_lt (Nat.div_le_self _ _) h)]
    simpa using hdiv7
  · rw [if_neg h, if_neg h]
    have hdivge : 2 ^ (63 - s) ≤ P / 2 ^ s := by
      rw [Nat.le_div_iff_mul_le (Nat.pos_pow_of_pos s (by norm_num))]
      calc 2 ^ (63 - s) * 2 ^ s = 2 ^ 63 := by rw [← pow_add]; congr 1; omega
        _ ≤ P := by omega
    have h2ds : (2 : Nat) ^ (64 - s) = 2 * 2 ^ (63 - s) := by
      rw [show 64 - s = 1 + (63 - s) by omega, pow_add]; norm_num
    have h63 : (2 : Nat) ^ (63 - s) ≤ 2 ^ 63 := Nat.pow_le_pow_right (by norm_num) (by omega)
    rw [if_neg (by omega)]
    have hsplit : 2 ^ 64 - 2 ^ (64 - s) = 128 * (2 ^ 57 - 2 ^ (57 - s)) := by
      rw [hds]
      have : (2 : Nat) ^ 64 = 128 * 2 ^ 57 := by norm_num
      omega
    rw [hsplit, Nat.add_mul_div_left _ _ (by norm_num : (0 : Nat) < 128), hdiv7]
    have he : 64 - (s + 7) = 57 - s := by omega
    rw [he]
    omega

theorem asr64_mod128 (P s : Nat) (hs : s ≤ 56) :
    asr64 P s % 128 = P / 2 ^ s % 128 := by
  unfold asr64
  split
  · rfl
  · have hds : (2 : Nat) ^ (64 - s) = 128 * 2 ^ (57 - s) := by
      rw [show 64 - s = 7 + (57 - s) by omega, pow_add]; norm_num
    have hd57 : (2 : Nat) ^ (57 - s) ≤ 2 ^ 57 := Nat.pow_le_pow_right (by norm_num) (by omega)
    have hsplit : 2 ^ 64 - 2 ^ (64 - s) = 128 * (2 ^ 57 - 2 ^ (57 - s)) := by
      rw [hds]
      have : (2 : Nat) ^ 64 = 128 * 2 ^ 57 := by norm_num
      omega
    rw [hsplit, Nat.add_mul_mod_self_left]

theorem asr64_eq_zero_iff (P k : Nat) (hk : k ≤ 63) :
    asr64 P k = 0 ↔ P < 2 ^ k := by
  unfold asr64
  have hkk : (2 : Nat) ^ k ≤ 2 ^ 63 := Nat.pow_le_pow_right (by norm_num) hk
  have h1 : (1 : Nat) ≤ 2 ^ (64 - k) := Nat.one_le_two_pow
  split
  · rw [Nat.div_eq_zero_iff (Nat.pos_pow_of_pos k (by norm_num))]
  · rename_i hneg
    constructor
    · intro h
      exfalso
      have h0 : P / 2 ^ k = 0 := by
        generalize P / 2 ^ k = D at h ⊢
        omega
      have := (Nat.div_eq_zero_iff (Nat.pos_pow_of_pos k (by norm_num))).mp h0
      omega
    · intro h
      exfalso
      omega

theorem asr64_eq_allones_iff (P k : Nat) (hP : P < 2 ^ 64) (hk : k ≤ 63) :
    asr64 P k = 2 ^ 64 - 1 ↔ 2 ^ 64 - 2 ^ k ≤ P := by
  unfold asr64
  have hkpos : (0 : Nat) < 2 ^ k := Nat.pos_pow_of_pos k (by norm_num)
  have hkk : (2 : Nat) ^ k ≤ 2 ^ 63 := Nat.pow_le_pow_right (by norm_num) hk
  have h64 : (2 : Nat) ^ 64 = 2 ^ (64 - k) * 2 ^ k := by
    rw [← pow_add]; congr 1; omega
  have h1 : (1 : Nat) ≤ 2 ^ (64 - k) := Nat.one_le_two_pow
  have hdk64 : (2 : Nat) ^ (64 - k) ≤ 2 ^ 64 := Nat.pow_le_pow_right (by norm_num) (by omega)
  split
  · rename_i hpos
    have : P / 2 ^ k ≤ P := Nat.div_le_self _ _
    constructor
    · intro h
      omega
    · intro h
      omega
  · rename_i hneg
    constructor
    · intro h
      have hdl : P / 2 ^ k = 2 ^ (64 - k) - 1 := by
        generalize P / 2 ^ k = D at h ⊢
        omega
      calc 2 ^ 64 - 2 ^ k = (2 ^ (64 - k) - 1) * 2 ^ k := by
            rw [Nat.sub_mul, one_mul, ← h64]
        _ = P / 2 ^ k * 2 ^ k := by rw [hdl]
        _ ≤ P := Nat.div_mul_le_self P (2 ^ k)
    · intro h
      have hge : 2 ^ (64 - k) - 1 ≤ P / 2 ^ k := by
        rw [Nat.le_div_iff_mul_le hkpos, Nat.sub_mul, one_mul, ← h64]
        omega
      have hlt : P / 2 ^ k < 2 ^ (64 - k) := by
        rw [Nat.div_lt_iff_lt_mul hkpos, ← h64]
        exact hP
      generalize P / 2 ^ k = D at hge hlt ⊢
      omega

/-- The central SLEB128 lemma, by downward induction on the remaining fuel:
at shift `7 * (10 - fuel)` the decoder has accumulated exactly the low bits
of the original pattern `P`; decoding the encoding of the arithmetically
shifted remainder reconstructs `P` and consumes exactly the encoding. -/
theorem sleb_loop_roundtrip :
    ∀ fuel P val (rest : List Nat) (off : Nat), 1 ≤ fuel → fuel ≤ 10 →
    P < 2 ^ 64 → val = P % 2 ^ (7 * (10 - fuel)) →
    slebDecodeLoop fuel val (7 * (10 - fuel))
        ⟨slebEncodeLoop fuel (asr64 P (7 * (10 - fuel))) ++ rest, off⟩ =
      .ok (P, ⟨rest, off + (slebEncodeLoop fuel (asr64 P (7 * (10 - fuel)))).length⟩) := by
  intro fuel
  induction fuel with
  | zero => intro P val rest off h1 _ _ _; exact absurd h1 (by omega)
  | succ fuel ih =>
    intro P val rest off _ h10 hP hval
    by_cases hf0 : fuel = 0
    · subst hf0
      simp only [show (7 : Nat) * (10 - (0 + 1)) = 63 from rfl] at hval ⊢
      subst hval
      by_cases hsgn : P < 2 ^ 63
      · rw [(asr64_eq_zero_iff P 63 (by norm_num)).mpr hsgn]
        rw [show slebEncodeLoop (0 + 1) 0 = [0] from rfl]
        simp only [List.cons_append, List.nil_append, List.length_cons, List.length_nil]
        simp only [slebDecodeLoop, readByte_cons]
        norm_num
        omega
      · rw [(asr64_eq_allones_iff P 63 hP (by norm_num)).mpr (by omega)]
        rw [show slebEncodeLoop (0 + 1) (2 ^ 64 - 1) = [127] from rfl]
        simp only [List.cons_append, List.nil_append, List.length_cons, List.length_nil]
        simp only [slebDecodeLoop, readByte_cons]
        norm_num
        have h2 : (127 : Nat) <<< 63 % 18446744073709551616 = 1 * 2 ^ 63 := by
          norm_num [Nat.shiftLeft_eq]
        rw [h2, or_mul_two_pow_eq_add (k := 63) 1 (by omega)]
        omega
    · obtain ⟨s, hs⟩ : ∃ s, s = 7 * (10 - (fuel + 1)) := ⟨_, rfl⟩
      rw [← hs] at hval ⊢
      have hs56 : s ≤ 56 := by omega
      have hs7 : s + 7 = 7 * (10 - fuel) := by omega
      have hp64 : asr64 P s < 2 ^ 64 := asr64_lt P s hP (by omega)
      have hb128 : asr64 P s % 128 < 128 := Nat.mod_lt _ (by norm_num)
      have hbP : asr64 P s % 128 = P / 2 ^ s % 128 := asr64_mod128 P s hs56
      have hstep : sar64by7 (asr64 P s) = asr64 P (s + 7) := asr64_step P s hP hs56
      have e7 : (2 : Nat) ^ (s + 7) = 2 ^ s * 128 := by rw [pow_add]; norm_num
      have hvlt : val < 2 ^ s := hval ▸ Nat.mod_lt _ (Nat.pos_pow_of_pos s (by norm_num))
      have hs2 : (2 : Nat) ^ s ≤ 2 ^ 56 := Nat.pow_le_pow_right (by norm_num) hs56
      have hblt : asr64 P s % 128 * 2 ^ s < 2 ^ 64 := by
        calc asr64 P s % 128 * 2 ^ s ≤ 127 * 2 ^ 56 := Nat.mul_le_mul (by omega) hs2
          _ < 2 ^ 64 := by norm_num
      simp only [slebEncodeLoop]
      split_ifs with hstop
      · simp only [List.cons_append, List.nil_append, List.length_cons, List.length_nil]
        simp only [slebDecodeLoop, readByte_cons]
        rw [show asr64 P s % 128 % 256 = asr64 P s % 128 by omega]
        rw [if_pos ((and_0x80_eq_zero_iff _ (by omega)).mpr (by omega))]
        rw [show asr64 P s % 128 % 128 = asr64 P s % 128 by omega]
        rw [Nat.shiftLeft_eq, Nat.mod_eq_of_lt hblt, or_mul_two_pow_eq_add _ hvlt]
        rcases hstop with ⟨hz, h40⟩ | ⟨ho, h40⟩
        · rw [hstep] at hz
          have hPlt : P < 2 ^ (s + 7) := (asr64_eq_zero_iff P (s + 7) (by omega)).mp hz
          rw [if_neg (by intro hcon; exact hcon.2 h40)]
          have hdiv : P / 2 ^ s < 128 := by
            rw [Nat.div_lt_iff_lt_mul (Nat.pos_pow_of_pos s (by norm_num))]
            calc P < 2 ^ (s + 7) := hPlt
              _ = 128 * 2 ^ s := by rw [e7]; ring
          have hfinal : val + asr64 P s % 128 * 2 ^ s = P := by
            rw [hval, hbP, Nat.mod_eq_of_lt hdiv]
            exact Nat.mod_add_div' P (2 ^ s)
          rw [hfinal]
        · rw [hstep] at ho
          have hPge : 2 ^ 64 - 2 ^ (s + 7) ≤ P :=
            (asr64_eq_allones_iff P (s + 7) hP (by omega)).mp ho
          rw [if_pos ⟨by omega, h40⟩]
          have hmod : val + asr64 P s % 128 * 2 ^ s = P % 2 ^ (s + 7) := by
            rw [hval, hbP, e7, Nat.mod_mul]
            ring
          rw [hmod]
          have hR : (2 : Nat) ^ (s + 7) * 2 ^ (57 - s) = 2 ^ 64 := by
            rw [← pow_add]; congr 1; omega
          have hmlt : P % 2 ^ (s + 7) < 2 ^ (s + 7) :=
            Nat.mod_lt _ (Nat.pos_pow_of_pos _ (by norm_num))
          have hsub : 2 ^ 64 - 2 ^ (s + 7) = (2 ^ (57 - s) - 1) * 2 ^ (s + 7) := by
            rw [Nat.sub_mul, one_mul, Nat.mul_comm, hR]
          rw [hsub, or_mul_two_pow_eq_add _ hmlt]
          have hm0 : (0 : Nat) < 2 ^ (s + 7) := Nat.pos_pow_of_pos _ (by norm_num)
          have hdivP : P / 2 ^ (s + 7) = 2 ^ (57 - s) - 1 := by
            have hge : 2 ^ (57 - s) - 1 ≤ P / 2 ^ (s + 7) := by
              rw [Nat.le_div_iff_mul_le hm0]
              calc (2 ^ (57 - s) - 1) * 2 ^ (s + 7) = 2 ^ 64 - 2 ^ (s + 7) := hsub.symm
                _ ≤ P := hPge
            have hlt2 : P / 2 ^ (s + 7) < 2 ^ (57 - s) := by
              rw [Nat.div_lt_iff_lt_mul hm0, Nat.mul_comm, hR]
              exact hP
            generalize P / 2 ^ (s + 7) = D at hge hlt2 ⊢
            omega
          have hfinal : P % 2 ^ (s + 7) + (2 ^ (57 - s) - 1) * 2 ^ (s + 7) = P := by
            calc P % 2 ^ (s + 7) + (2 ^ (57 - s) - 1) * 2 ^ (s + 7)
                = P % 2 ^ (s + 7) + P / 2 ^ (s + 7) * 2 ^ (s + 7) := by rw [hdivP]
              _ = P := Nat.mod_add_div' P (2 ^ (s + 7))
          rw [hfinal]
      · simp only [List.cons_append, List.length_cons]
        simp only [slebDecodeLoop, readByte_cons]
        rw [show (128 + asr64 P s % 128) % 256 = 128 + asr64 P s % 128 by omega]
        rw [if_neg (by
          intro hcon
          have := (and_0x80_eq_zero_iff _ (by omega)).mp hcon
          omega)]
        rw [show (128 + asr64 P s % 128) % 128 = asr64 P s % 128 by omega]
        rw [Nat.shiftLeft_eq, Nat.mod_eq_of_lt hblt, or_mul_two_pow_eq_add _ hvlt]
        rw [hstep]
        have hval' : val + asr64 P s % 128 * 2 ^ s = P % 2 ^ (s + 7) := by
          rw [hval, hbP, e7, Nat.mod_mul]
          ring
        have happ := ih P (val + asr64 P s % 128 * 2 ^ s) rest (off + 1)
          (by omega) (by omega) hP (by rw [← hs7]; exact hval')
        rw [← hs7] at happ
        rw [happ]
        simp only [Except.ok.injEq, DecSt.mk.injEq, Prod.mk.injEq]
        refine ⟨trivial, trivial, ?_⟩
        omega


/-- `i64` decode inverts encode on 64-bit two's-complement patterns and
advances the offset by the byte length of the encoding. -/
theorem decodeI64_roundtrip (p : Nat) (hp : p < 2 ^ 64) (rest : List Nat) (off : Nat) :
    decodeI64 ⟨slebEncode p ++ rest, off⟩ =
      .ok (p, ⟨rest, off + (slebEncode p).length⟩) := by
  have h := sleb_loop_roundtrip 10 p 0 rest off (by norm_num) (by norm_num) hp (by omega)
  rw [show (7 : Nat) * (10 - 10) = 0 from rfl, asr64_zero] at h
  simpa [decodeI64, slebEncode] using h

/-! ## `u8`, `f32`, and small helpers -/

theorem readDiscard_zero (s : DecSt) : readDiscard 0 s = .ok ((), s) := by
  unfold readDiscard
  simp

theorem ulebEncode_small (v : Nat) (hv : v ≤ 127) : ulebEncode v = [v] := by
  unfold ulebEncode
  rw [if_pos hv]

theorem decodeU8_roundtrip (v : Nat) (hv : v < 256) (rest : List Nat) (off : Nat) :
    decodeU8 ⟨encodeU8 v ++ rest, off⟩ = .ok (v, ⟨rest, off + (encodeU8 v).length⟩) := by
  simp [decodeU8, encodeU8, readByte, Nat.mod_eq_of_lt hv]

theorem decodeF32_bytes (b0 b1 b2 b3 : Nat) (rest : List Nat) (off : Nat) :
    decodeF32 ⟨b0 :: b1 :: b2 :: b3 :: rest, off⟩ =
      .ok (b0 % 256 + b1 % 256 * 2 ^ 8 + b2 % 256 * 2 ^ 16 + b3 % 256 * 2 ^ 24,
        ⟨rest, off + 4⟩) := by
  simp [decodeF32, readBytesN]

theorem decodeF32_roundtrip (p : Nat) (hp : p < 2 ^ 32) (rest : List Nat) (off : Nat) :
    decodeF32 ⟨encodeF32 p ++ rest, off⟩ = .ok (p, ⟨rest, off + (encodeF32 p).length⟩) := by
  have henc : encodeF32 p ++ rest =
      (p % 256) :: (p / 2 ^ 8 % 256) :: (p / 2 ^ 16 % 256) :: (p / 2 ^ 24 % 256) :: rest := rfl
  rw [henc, decodeF32_bytes]
  have hlen : (encodeF32 p).length = 4 := rfl
  rw [hlen]
  congr 2
  omega

/-! ## Packet round trips -/

theorem decodeU32_zero (r : List Nat) (o : Nat) :
    decodeU32 ⟨0 :: r, o⟩ = .ok (0, ⟨r, o + 1⟩) := by
  have h := decodeU32_roundtrip 0 (by norm_num) r o
  rw [ulebEncode_small 0 (by norm_num)] at h
  simpa using h

theorem decodePacket_handshakeStart (mj mn : Nat) (hmj : mj < 256) (hmn : mn < 256)
    (rest : List Nat) (off : Nat) :
    Packet.decode ⟨Packet.encode (.handshakeStart mj mn) ++ rest, off⟩ =
      .ok (.handshakeStart mj mn,
        ⟨rest, off + (Packet.encode (.handshakeStart mj mn)).length⟩) := by
  have henc : Packet.encode (.handshakeStart mj mn) = [0, mj, mn, 0] := by
    simp [Packet.encode, encodeU8, ulebEncode_small, Nat.mod_eq_of_lt hmj, Nat.mod_eq_of_lt hmn]
  rw [henc]
  simp [Packet.decode, decodeHandshakeStart, readByte_cons, decodeU32_zero, readDiscard_zero,
    Nat.mod_eq_of_lt hmj, Nat.mod_eq_of_lt hmn, Except.map]

theorem decodeU32_small (v : Nat) (hv : v ≤ 127) (r : List Nat) (o : Nat) :
    decodeU32 ⟨v :: r, o⟩ = .ok (v, ⟨r, o + 1⟩) := by
  have h := decodeU32_roundtrip v (by omega) r o
  rw [ulebEncode_small v hv] at h
  simpa using h

theorem decodePacket_handshakeEnd (mn e : Nat) (hmn : mn < 256) (he : e < 2 ^ 64)
    (rest : List Nat) (off : Nat) :
    Packet.decode ⟨Packet.encode (.handshakeEnd 1 mn e) ++ rest, off⟩ =
      .ok (.handshakeEnd 1 mn e,
        ⟨rest, off + (Packet.encode (.handshakeEnd 1 mn e)).length⟩) := by
  have hL : (ulebEncode e).length ≤ 10 := ulebEncode_length 9 e (by norm_num at he ⊢; omega)
  have henc : Packet.encode (.handshakeEnd 1 mn e) =
      1 :: 1 :: mn :: (ulebEncode e).length :: ulebEncode e := by
    simp only [Packet.encode, ulebEncode_small ((ulebEncode e).length) (by omega), encodeU8]
    simp [Nat.mod_eq_of_lt hmn]
  rw [henc]
  simp [Packet.decode, decodeHandshakeEnd, readByte_cons,
    decodeU32_small _ (show (ulebEncode e).length ≤ 127 by omega),
    decodeU64_roundtrip e he, Nat.add_sub_cancel_left, readDiscard_zero,
    Nat.mod_eq_of_lt hmn, Except.map]
  omega

theorem decodePacket_ack (rest : List Nat) (off : Nat) :
    Packet.decode ⟨Packet.encode .ack ++ rest, off⟩ =
      .ok (.ack, ⟨rest, off + (Packet.encode .ack).length⟩) := by
  simp [Packet.encode, encodeU8, Packet.decode, readByte_cons]

theorem decodePacket_resetConnection (rest : List Nat) (off : Nat) :
    Packet.decode ⟨Packet.encode .resetConnection ++ rest, off⟩ =
      .ok (.resetConnection, ⟨rest, off + (Packet.encode .resetConnection).length⟩) := by
  simp [Packet.encode, encodeU8, Packet.decode, readByte_cons]

theorem decodePacket_sensorData (c : Nat) (hc : c < 256) (rest : List Nat) (off : Nat) :
    Packet.decode ⟨Packet.encode (.sensorData c) ++ rest, off⟩ =
      .ok (.sensorData c, ⟨rest, off + (Packet.encode (.sensorData c)).length⟩) := by
  simp [Packet.encode, encodeU8, Packet.decode, readByte_cons, Nat.mod_eq_of_lt hc]

/-! ## SensorValue decoding -/

/-- Statement helper: the typed constructor decoded for each known kind. -/
def knownKind (kind bits : Nat) : SensorValue :=
  match kind with
  | 0 => .temperature bits
  | 1 => .pressure bits
  | 2 => .altitude bits
  | 3 => .airQuality bits
  | _ => .unknown kind 0

/-- Decoding a known kind with declared length `L ≥ 4`: the 4-byte body is
read and the `L - 4` residual bytes are discarded; exactly `L` payload bytes
are consumed after the length field. -/
theorem SensorValue.decode_known (kind L : Nat) (hk : kind ≤ 3) (hL4 : 4 ≤ L)
    (hL : L < 2 ^ 32) (b0 b1 b2 b3 : Nat) (junk rest : List Nat)
    (hjunk : junk.length = L - 4) (off : Nat) :
    SensorValue.decode
        ⟨ulebEncode kind ++ (ulebEncode L ++ (b0 :: b1 :: b2 :: b3 :: (junk ++ rest))), off⟩ =
      .ok (knownKind kind (b0 % 256 + b1 % 256 * 2 ^ 8 + b2 % 256 * 2 ^ 16 + b3 % 256 * 2 ^ 24),
        ⟨rest, off + 1 + (ulebEncode L).length + L⟩) := by
  rw [ulebEncode_small kind (by omega)]
  have hdrop : (junk ++ rest).drop (L - 4) = rest := List.drop_left' hjunk
  have hdisc : ∀ o : Nat, readDiscard (L - 4) ⟨junk ++ rest, o⟩ = .ok ((), ⟨rest, o + (L - 4)⟩) := by
    intro o
    rw [readDiscard_ok (L - 4) ⟨junk ++ rest, o⟩ (by simp [hjunk])]
    rw [hdrop]
  have hub : ∀ r o, decodeU32 ⟨ulebEncode L ++ r, o⟩ =
      .ok (L, ⟨r, o + (ulebEncode L).length⟩) := fun r o => decodeU32_roundtrip L hL r o
  interval_cases kind <;>
    simp [SensorValue.decode, decodeU32_small 0 (by norm_num), decodeU32_small 1 (by norm_num),
      decodeU32_small 2 (by norm_num), decodeU32_small 3 (by norm_num),
      hub, decodeF32_bytes, hdisc, knownKind,
      Nat.add_sub_cancel_left, Except.map] <;>
    rw [if_pos hL4,
      show off + 1 + (ulebEncode L).length + 4 + (L - 4) =
        off + 1 + (ulebEncode L).length + L by omega]

/-- Decoding a known kind whose declared length is smaller than the 4-byte
typed body: `checked_sub` underflows and the decoder reports
`decoding_error()`. -/
theorem SensorValue.decode_known_short (kind L : Nat) (hk : kind ≤ 3) (hL4 : L < 4)
    (b0 b1 b2 b3 : Nat) (rest : List Nat) (off : Nat) :
    SensorValue.decode
        ⟨ulebEncode kind ++ (ulebEncode L ++ (b0 :: b1 :: b2 :: b3 :: rest)), off⟩ =
      .error (.decoding, ⟨rest, off + 1 + (ulebEncode L).length + 4⟩) := by
  rw [ulebEncode_small kind (by omega)]
  have hub : ∀ r o, decodeU32 ⟨ulebEncode L ++ r, o⟩ =
      .ok (L, ⟨r, o + (ulebEncode L).length⟩) :=
    fun r o => decodeU32_roundtrip L (by omega) r o
  interval_cases kind <;>
    simp [SensorValue.decode, decodeU32_small 0 (by norm_num), decodeU32_small 1 (by norm_num),
      decodeU32_small 2 (by norm_num), decodeU32_small 3 (by norm_num),
      hub, decodeF32_bytes, Nat.add_sub_cancel_left, Except.map] <;>
    exact fun h => absurd h (by omega)

/-- Decoding an unknown kind: no typed body is read and exactly the declared
`value_len` payload bytes are discarded. -/
theorem SensorValue.decode_unknown (kind L : Nat) (hk : 4 ≤ kind) (hkind : kind < 2 ^ 32)
    (hL : L < 2 ^ 32) (junk rest : List Nat) (hjunk : junk.length = L) (off : Nat) :
    SensorValue.decode ⟨ulebEncode kind ++ (ulebEncode L ++ (junk ++ rest)), off⟩ =
      .ok (.unknown kind L,
        ⟨rest, off + (ulebEncode kind).length + (ulebEncode L).length + L⟩) := by
  obtain ⟨k, rfl⟩ : ∃ k, kind = k + 4 := ⟨kind - 4, by omega⟩
  have hdisc : ∀ o : Nat, readDiscard L ⟨junk ++ rest, o⟩ = .ok ((), ⟨rest, o + L⟩) := by
    intro o
    rw [readDiscard_ok L ⟨junk ++ rest, o⟩ (by simp [hjunk]), List.drop_left' hjunk]
  simp [SensorValue.decode, decodeU32_roundtrip (k + 4) hkind, decodeU32_roundtrip L hL,
    hdisc, Nat.add_sub_cancel_left, Except.map]

/-- Well-formedness of a `SensorValue` for the encode/decode round trip: the
known kinds carry a 32-bit `f32` pattern; an `Unknown` value round-trips
self-contained only with a genuinely unknown id and no residual payload. -/
def SensorValue.WF : SensorValue → Prop
  | .temperature bits => bits < 2 ^ 32
  | .pressure bits => bits < 2 ^ 32
  | .altitude bits => bits < 2 ^ 32
  | .airQuality bits => bits < 2 ^ 32
  | .unknown id value_len => 4 ≤ id ∧ id < 2 ^ 32 ∧ value_len = 0

/-- `SensorValue` encode/decode round trip for well-formed values. -/
theorem SensorValue.decode_encode (v : SensorValue) (hv : v.WF) (rest : List Nat) (off : Nat) :
    SensorValue.decode ⟨v.encode ++ rest, off⟩ = .ok (v, ⟨rest, off + v.encode.length⟩) := by
  cases v with
  | unknown id len =>
    obtain ⟨h4, h32, rfl⟩ := hv
    have h := SensorValue.decode_unknown id 0 h4 h32 (by norm_num) [] rest rfl off
    simp only [List.nil_append] at h
    have henc : SensorValue.encode (.unknown id 0) = ulebEncode id ++ ulebEncode 0 := by
      simp only [SensorValue.encode]
      rw [Nat.mod_eq_of_lt h32, Nat.zero_mod]
    rw [henc, List.append_assoc, h]
    simp [ulebEncode_small 0 (by norm_num)]
    omega
  | temperature bits =>
    have hb : bits < 2 ^ 32 := hv
    have h := SensorValue.decode_known 0 4 (by norm_num) (by norm_num) (by norm_num)
      (bits % 256) (bits / 2 ^ 8 % 256) (bits / 2 ^ 16 % 256) (bits / 2 ^ 24 % 256)
      [] rest (by norm_num) off
    simp only [List.nil_append] at h
    rw [show bits % 256 % 256 + bits / 2 ^ 8 % 256 % 256 * 2 ^ 8 +
        bits / 2 ^ 16 % 256 % 256 * 2 ^ 16 + bits / 2 ^ 24 % 256 % 256 * 2 ^ 24 = bits
      by omega] at h
    have henc : SensorValue.encode (.temperature bits) ++ rest =
        ulebEncode 0 ++ (ulebEncode 4 ++ ((bits % 256) :: (bits / 2 ^ 8 % 256) ::
          (bits / 2 ^ 16 % 256) :: (bits / 2 ^ 24 % 256) :: rest)) := by
      simp [SensorValue.encode, encodeF32]
    rw [henc, h]
    simp [knownKind, SensorValue.encode, encodeF32, ulebEncode_small 0 (by norm_num),
      ulebEncode_small 4 (by norm_num)]
  | pressure bits =>
    have hb : bits < 2 ^ 32 := hv
    have h := SensorValue.decode_known 1 4 (by norm_num) (by norm_num) (by norm_num)
      (bits % 256) (bits / 2 ^ 8 % 256) (bits / 2 ^ 16 % 256) (bits / 2 ^ 24 % 256)
      [] rest (by norm_num) off
    simp only [List.nil_append] at h
    rw [show bits % 256 % 256 + bits / 2 ^ 8 % 256 % 256 * 2 ^ 8 +
        bits / 2 ^ 16 % 256 % 256 * 2 ^ 16 + bits / 2 ^ 24 % 256 % 256 * 2 ^ 24 = bits
      by omega] at h
    have henc : SensorValue.encode (.pressure bits) ++ rest =
        ulebEncode 1 ++ (ulebEncode 4 ++ ((bits % 256) :: (bits / 2 ^ 8 % 256) ::
          (bits / 2 ^ 16 % 256) :: (bits / 2 ^ 24 % 256) :: rest)) := by
      simp [SensorValue.encode, encodeF32]
    rw [henc, h]
    simp [knownKind, SensorValue.encode, encodeF32, ulebEncode_small 1 (by norm_num),
      ulebEncode_small 4 (by norm_num)]
  | altitude bits =>
    have hb : bits < 2 ^ 32 := hv
    have h := SensorValue.decode_known 2 4 (by norm_num) (by norm_num) (by norm_num)
      (bits % 256) (bits / 2 ^ 8 % 256) (bits / 2 ^ 16 % 256) (bits / 2 ^ 24 % 256)
      [] rest (by norm_num) off
    simp only [List.nil_append] at h
    rw [show bits % 256 % 256 + bits / 2 ^ 8 % 256 % 256 * 2 ^ 8 +
        bits / 2 ^ 16 % 256 % 256 * 2 ^ 16 + bits / 2 ^ 24 % 256 % 256 * 2 ^ 24 = bits
      by omega] at h
    have henc : SensorValue.encode (.altitude bits) ++ rest =
        ulebEncode 2 ++ (ulebEncode 4 ++ ((bits % 256) :: (bits / 2 ^ 8 % 256) ::
          (bits / 2 ^ 16 % 256) :: (bits / 2 ^ 24 % 256) :: rest)) := by
      simp [SensorValue.encode, encodeF32]
    rw [henc, h]
    simp [knownKind, SensorValue.encode, encodeF32, ulebEncode_small 2 (by norm_num),
      ulebEncode_small 4 (by norm_num)]
  | airQuality bits =>
    have hb : bits < 2 ^ 32 := hv
    have h := SensorValue.decode_known 3 4 (by norm_num) (by norm_num) (by norm_num)
      (bits % 256) (bits / 2 ^ 8 % 256) (bits / 2 ^ 16 % 256) (bits / 2 ^ 24 % 256)
      [] rest (by norm_num) off
    simp only [List.nil_append] at h
    rw [show bits % 256 % 256 + bits / 2 ^ 8 % 256 % 256 * 2 ^ 8 +
        bits / 2 ^ 16 % 256 % 256 * 2 ^ 16 + bits / 2 ^ 24 % 256 % 256 * 2 ^ 24 = bits
      by omega] at h
    have henc : SensorValue.encode (.airQuality bits) ++ rest =
        ulebEncode 3 ++ (ulebEncode 4 ++ ((bits % 256) :: (bits / 2 ^ 8 % 256) ::
          (bits / 2 ^ 16 % 256) :: (bits / 2 ^ 24 % 256) :: rest)) := by
      simp [SensorValue.encode, encodeF32]
    rw [henc, h]
    simp [knownKind, SensorValue.encode, encodeF32, ulebEncode_small 3 (by norm_num),
      ulebEncode_small 4 (by norm_num)]

/-- Well-formedness of a `SensorValuePoint` (the Rust field types ranges). -/
def SensorValuePoint.WF (p : SensorValuePoint) : Prop :=
  p.value.WF ∧ p.time_offset < 2 ^ 64

/-- `SensorValuePoint` encode/decode round trip for well-formed points. -/
theorem SensorValuePoint.roundtrip (p : SensorValuePoint) (hp : p.WF)
    (rest : List Nat) (off : Nat) :
    SensorValuePoint.decode ⟨p.encode ++ rest, off⟩ =
      .ok (p, ⟨rest, off + p.encode.length⟩) := by
  obtain ⟨hv, ht⟩ := hp
  simp only [SensorValuePoint.decode, SensorValuePoint.encode, List.append_assoc,
    decodeI64_roundtrip p.time_offset ht, SensorValue.decode_encode p.value hv]
  simp
  omega

/-! ## Overlong LEB128 inputs (the decoder truncates, it does not reject) -/

/-- When every byte carries the continuation bit, the unsigned loop reads
exactly `fuel` bytes and then returns `Ok` with the accumulated value. -/
theorem uleb_loop_overlong (w : Nat) : ∀ fuel val shift (bs rest : List Nat) (off : Nat),
    bs.length = fuel → (∀ b ∈ bs, 128 ≤ b % 256) →
    ∃ v, ulebDecodeLoop w fuel val shift ⟨bs ++ rest, off⟩ = .ok (v, ⟨rest, off + fuel⟩) := by
  intro fuel
  induction fuel with
  | zero =>
    intro val shift bs rest off hlen _
    rw [List.length_eq_zero.mp hlen]
    exact ⟨val, by simp [ulebDecodeLoop]⟩
  | succ fuel ih =>
    intro val shift bs rest off hlen hcont
    obtain ⟨b, bs', rfl⟩ : ∃ b bs', bs = b :: bs' := by
      cases bs with
      | nil => simp at hlen
      | cons b bs' => exact ⟨b, bs', rfl⟩
    have hb : 128 ≤ b % 256 := hcont b (by simp)
    simp only [List.cons_append, ulebDecodeLoop, readByte_cons]
    rw [if_neg (by
      intro hcon
      have := (and_0x80_eq_zero_iff (b % 256) (by omega)).mp hcon
      omega)]
    obtain ⟨v, hv⟩ := ih (val ||| (b % 256 % 128) <<< shift % w) (shift + 7) bs' rest (off + 1)
      (by simpa using hlen) (fun x hx => hcont x (by simp [hx]))
    exact ⟨v, by rw [hv]; simp; omega⟩

/-- Same for the signed loop. -/
theorem sleb_loop_overlong : ∀ fuel val shift (bs rest : List Nat) (off : Nat),
    bs.length = fuel → (∀ b ∈ bs, 128 ≤ b % 256) →
    ∃ v, slebDecodeLoop fuel val shift ⟨bs ++ rest, off⟩ = .ok (v, ⟨rest, off + fuel⟩) := by
  intro fuel
  induction fuel with
  | zero =>
    intro val shift bs rest off hlen _
    rw [List.length_eq_zero.mp hlen]
    exact ⟨val, by simp [slebDecodeLoop]⟩
  | succ fuel ih =>
    intro val shift bs rest off hlen hcont
    obtain ⟨b, bs', rfl⟩ : ∃ b bs', bs = b :: bs' := by
      cases bs with
      | nil => simp at hlen
      | cons b bs' => exact ⟨b, bs', rfl⟩
    have hb : 128 ≤ b % 256 := hcont b (by simp)
    simp only [List.cons_append, slebDecodeLoop, readByte_cons]
    rw [if_neg (by
      intro hcon
      have := (and_0x80_eq_zero_iff (b % 256) (by omega)).mp hcon
      omega)]
    obtain ⟨v, hv⟩ := ih (val ||| (b % 256 % 128) <<< shift % 2 ^ 64) (shift + 7) bs' rest (off + 1)
      (by simpa using hlen) (fun x hx => hcont x (by simp [hx]))
    exact ⟨v, by rw [hv]; simp; omega⟩

/-! ## Unknown packet discriminants and future handshake versions -/

/-- An unknown `Packet` discriminant produces `decoding_error()` after exactly
one byte has been consumed. -/
theorem Packet.decode_unknown_tag (b : Nat) (hb5 : 5 ≤ b) (hb : b < 256)
    (rest : List Nat) (off : Nat) :
    Packet.decode ⟨b :: rest, off⟩ = .error (.decoding, ⟨rest, off + 1⟩) := by
  simp only [Packet.decode, readByte_cons]
  rw [Nat.mod_eq_of_lt hb]
  obtain ⟨k, rfl⟩ : ∃ k, b = k + 5 := ⟨b - 5, by omega⟩
  rfl

/-- `HandshakeEnd` from the future: when `major ≠ 1` no epoch is read, the
returned epoch is 0, and the declared tail is discarded in full. -/
theorem decodeHandshakeEnd_future (mj mn t : Nat) (hmj1 : mj ≠ 1) (hmj : mj < 256)
    (hmn : mn < 256) (ht : t < 2 ^ 32) (tail rest : List Nat) (htail : tail.length = t)
    (off : Nat) :
    decodeHandshakeEnd ⟨mj :: mn :: (ulebEncode t ++ (tail ++ rest)), off⟩ =
      .ok ((mj, mn, 0), ⟨rest, off + 2 + (ulebEncode t).length + t⟩) := by
  have hdisc : ∀ o : Nat, readDiscard t ⟨tail ++ rest, o⟩ = .ok ((), ⟨rest, o + t⟩) := by
    intro o
    rw [readDiscard_ok t ⟨tail ++ rest, o⟩ (by simp [htail]), List.drop_left' htail]
  have hmin : min t (2 ^ 32 - 1) = t := by omega
  simp only [decodeHandshakeEnd, readByte_cons, Nat.mod_eq_of_lt hmj, Nat.mod_eq_of_lt hmn,
    decodeU32_roundtrip t ht, if_neg hmj1, hmin, hdisc]


/-! ## Link-layer header algebra -/

theorem signPayload_lt (mac : List Nat → List Nat → List Nat) (payload sig_key : List Nat) :
    signPayload mac payload sig_key < 2 ^ 64 := by
  simp only [signPayload]
  have h0 : (mac payload sig_key).getD 0 0 % 256 < 256 := Nat.mod_lt _ (by norm_num)
  have h1 : (mac payload sig_key).getD 1 0 % 256 < 256 := Nat.mod_lt _ (by norm_num)
  have h2 : (mac payload sig_key).getD 2 0 % 256 < 256 := Nat.mod_lt _ (by norm_num)
  have h3 : (mac payload sig_key).getD 3 0 % 256 < 256 := Nat.mod_lt _ (by norm_num)
  have h4 : (mac payload sig_key).getD 4 0 % 256 < 256 := Nat.mod_lt _ (by norm_num)
  omega

/-- The `& 0xffffffffc0000000` in `read` keeps exactly the high 34 bits of
the 40-bit signature field. -/
theorem and_hi34 (t : Nat) :
    t &&& 0xffffffffc0000000 = t / 2 ^ 30 % 2 ^ 34 * 2 ^ 30 := by
  have hmask : (0xffffffffc0000000 : Nat) = 2 ^ 30 * (2 ^ 34 - 1) := by norm_num
  have hdiv : t / 2 ^ 30 = t >>> 30 := (Nat.shiftRight_eq_div_pow t 30).symm
  have hmul : t >>> 30 % 2 ^ 34 * 2 ^ 30 = 2 ^ 30 * (t >>> 30 % 2 ^ 34) := Nat.mul_comm _ _
  rw [hmask, hdiv, hmul]
  apply Nat.eq_of_testBit_eq
  intro j
  simp only [Nat.testBit_and, Nat.testBit_mul_pow_two, Nat.testBit_mod_two_pow,
    Nat.testBit_two_pow_sub_one, Nat.testBit_shiftRight]
  by_cases h30 : 30 ≤ j
  · by_cases h64 : j - 30 < 34
    · rw [show 30 + (j - 30) = j by omega]
      simp [h30, h64, Bool.and_comm]
    · simp [h64]
  · simp [show ¬(30 ≤ j) from h30, show ¬(j ≥ 30) from h30]

/-- `LinkPacket::write` in fully explicit form: the claimed 5-byte header
layout followed by the payload verbatim. -/
theorem LinkPacket.write_eq (mac : List Nat → List Nat → List Nat) (phase : LinkPhase)
    (id : Nat) (payload sig_key : List Nat) :
    LinkPacket.write mac phase id payload sig_key =
      (phase.toBits * 64 + id % 16 * 4 + signPayload mac payload sig_key / 2 ^ 62) ::
      (signPayload mac payload sig_key / 2 ^ 54 % 256) ::
      (signPayload mac payload sig_key / 2 ^ 46 % 256) ::
      (signPayload mac payload sig_key / 2 ^ 38 % 256) ::
      (signPayload mac payload sig_key / 2 ^ 30 % 256) :: payload := by
  have hpb : LinkPhase.toBits phase ≤ 2 := by cases phase <;> simp [LinkPhase.toBits]
  have ht : signPayload mac payload sig_key < 2 ^ 64 := signPayload_lt mac payload sig_key
  have hmeta : LinkPhase.toBits phase <<< 6 ||| (id &&& 15) <<< 2 =
      (LinkPhase.toBits phase * 16 + id % 16) * 4 := by
    rw [Nat.shiftLeft_eq, Nat.shiftLeft_eq, show (15 : Nat) = 2 ^ 4 - 1 by norm_num,
      Nat.and_pow_two_sub_one_eq_mod, Nat.or_comm,
      or_mul_two_pow_eq_add (k := 6) (LinkPhase.toBits phase) (by omega)]
    omega
  have hheader : (LinkPhase.toBits phase <<< 6 ||| (id &&& 15) <<< 2) <<< 56 |||
      signPayload mac payload sig_key >>> 6 =
      (LinkPhase.toBits phase * 16 + id % 16) * 2 ^ 58 +
        signPayload mac payload sig_key / 2 ^ 6 := by
    rw [hmeta, Nat.shiftLeft_eq, Nat.shiftRight_eq_div_pow, Nat.or_comm,
      show (LinkPhase.toBits phase * 16 + id % 16) * 4 * 2 ^ 56 =
        (LinkPhase.toBits phase * 16 + id % 16) * 2 ^ 58 by ring,
      or_mul_two_pow_eq_add (k := 58) (LinkPhase.toBits phase * 16 + id % 16) (by omega)]
    omega
  simp only [LinkPacket.write, hheader, List.cons_append, List.nil_append]
  simp only [List.cons.injEq, and_true]
  omega

/-- A frame shorter than 6 bytes is dropped regardless of its content. -/
theorem LinkPacket.readFrame_short (mac : List Nat → List Nat → List Nat)
    (sig_key bytes : List Nat) (h : bytes.length < 6) :
    LinkPacket.readFrame mac sig_key bytes = none := by
  simp [LinkPacket.readFrame, h]

/-- Evaluation of one `LinkPacket::read` iteration on an explicit frame:
the frame is accepted exactly when the high 34 bits of the recomputed
signature agree with the transmitted 34 bits. -/
theorem LinkPacket.readFrame_cons (mac : List Nat → List Nat → List Nat)
    (sig_key : List Nat) (b0 b1 b2 b3 b4 : Nat) (payload : List Nat) (hp : payload ≠ []) :
    LinkPacket.readFrame mac sig_key (b0 :: b1 :: b2 :: b3 :: b4 :: payload) =
      (if signPayload mac payload sig_key / 2 ^ 30 % 2 ^ 34 =
          b0 % 256 % 4 * 2 ^ 32 + b1 % 256 * 2 ^ 24 + b2 % 256 * 2 ^ 16 +
            b3 % 256 * 2 ^ 8 + b4 % 256
       then some (LinkPhase.fromBits ((b0 % 256) >>> 6), ((b0 % 256) >>> 2) &&& 0xf)
       else none) := by
  have hlen : ¬((b0 :: b1 :: b2 :: b3 :: b4 :: payload).length < 6) := by
    have := List.length_pos.mpr hp
    simp
    omega
  have ht : signPayload mac payload sig_key < 2 ^ 64 := signPayload_lt mac payload sig_key
  have hb0 : b0 % 256 < 256 := Nat.mod_lt _ (by norm_num)
  have hb1 : b1 % 256 < 256 := Nat.mod_lt _ (by norm_num)
  have hb2 : b2 % 256 < 256 := Nat.mod_lt _ (by norm_num)
  have hb3 : b3 % 256 < 256 := Nat.mod_lt _ (by norm_num)
  have hb4 : b4 % 256 < 256 := Nat.mod_lt _ (by norm_num)
  simp only [LinkPacket.readFrame, if_neg hlen, List.getD_cons_zero, List.getD_cons_succ,
    List.drop_succ_cons, List.drop_zero, Nat.shiftLeft_eq, and_hi34]
  by_cases h : signPayload mac payload sig_key / 2 ^ 30 % 2 ^ 34 =
      b0 % 256 % 4 * 2 ^ 32 + b1 % 256 * 2 ^ 24 + b2 % 256 * 2 ^ 16 +
        b3 % 256 * 2 ^ 8 + b4 % 256
  · rw [if_pos (by omega), if_pos h]
  · rw [if_neg (by omega), if_neg h]

/-- `LinkPacket::read` accepts a frame produced by `LinkPacket::write` with
the same key and returns the phase and the 4-bit id; `get_payload` recovers
the payload verbatim.  (A non-empty payload is required: with an empty
payload the emitted frame is 5 bytes and `read` drops it as too short.) -/
theorem LinkPacket.read_write_roundtrip (mac : List Nat → List Nat → List Nat)
    (phase : LinkPhase) (id : Nat) (payload sig_key : List Nat) (hp : payload ≠ []) :
    LinkPacket.readFrame mac sig_key (LinkPacket.write mac phase id payload sig_key) =
      some (phase, id % 16) ∧
    LinkPacket.getPayload (LinkPacket.write mac phase id payload sig_key) = payload := by
  have hpb : LinkPhase.toBits phase ≤ 2 := by cases phase <;> simp [LinkPhase.toBits]
  have ht : signPayload mac payload sig_key < 2 ^ 64 := signPayload_lt mac payload sig_key
  rw [LinkPacket.write_eq]
  refine ⟨?_, by simp [LinkPacket.getPayload]⟩
  rw [LinkPacket.readFrame_cons mac sig_key _ _ _ _ _ payload hp]
  have hB0 : LinkPhase.toBits phase * 64 + id % 16 * 4 +
      signPayload mac payload sig_key / 2 ^ 62 < 256 := by omega
  rw [if_pos (by omega)]
  rw [Nat.mod_eq_of_lt hB0]
  have hphase : (LinkPhase.toBits phase * 64 + id % 16 * 4 +
      signPayload mac payload sig_key / 2 ^ 62) >>> 6 = LinkPhase.toBits phase := by
    rw [Nat.shiftRight_eq_div_pow]
    omega
  have hid : ((LinkPhase.toBits phase * 64 + id % 16 * 4 +
      signPayload mac payload sig_key / 2 ^ 62) >>> 2) &&& 0xf = id % 16 := by
    rw [Nat.shiftRight_eq_div_pow, show (0xf : Nat) = 2 ^ 4 - 1 by norm_num,
      Nat.and_pow_two_sub_one_eq_mod]
    omega
  rw [hphase, hid]
  cases phase <;> rfl

theorem xor_flip_ne (x t : Nat) : x ^^^ 2 ^ t ≠ x := by
  intro h
  have h2 : x ^^^ (x ^^^ 2 ^ t) = x ^^^ x := congrArg (fun y => x ^^^ y) h
  rw [← Nat.xor_assoc, Nat.xor_self, Nat.zero_xor] at h2
  exact absurd h2 (Nat.pos_iff_ne_zero.mp (Nat.pos_pow_of_pos t (by norm_num)))

theorem xor_byte_lt (x : Nat) (hx : x < 256) (t : Nat) (ht : t < 8) : x ^^^ 2 ^ t < 256 := by
  have h1 : x < 2 ^ 8 := by omega
  have h2 : (2 : Nat) ^ t < 2 ^ 8 := by
    calc (2 : Nat) ^ t ≤ 2 ^ 7 := Nat.pow_le_pow_right (by norm_num) (by omega)
      _ < 2 ^ 8 := by norm_num
  have h3 := Nat.xor_lt_two_pow h1 h2
  omega

theorem xor_low2 (x tb : Nat) (htb : tb < 2) : (x ^^^ 2 ^ tb) % 4 = x % 4 ^^^ 2 ^ tb := by
  rw [show (4 : Nat) = 2 ^ 2 by norm_num, ← Nat.and_pow_two_sub_one_eq_mod,
    ← Nat.and_pow_two_sub_one_eq_mod, Nat.and_xor_distrib_right]
  congr 1
  interval_cases tb <;> decide

/-- Flipping any of the 34 transmitted signature bits (the low 2 bits of
byte 0, any bit of bytes 1-4) makes verification fail: the frame is
dropped. -/
theorem LinkPacket.readFrame_flipped_sigbit (mac : List Nat → List Nat → List Nat)
    (phase : LinkPhase) (id : Nat) (payload sig_key : List Nat) (k tb : Nat)
    (hk : k < 5) (htb : tb < 8) (h0 : k = 0 → tb < 2) :
    LinkPacket.readFrame mac sig_key
      ((LinkPacket.write mac phase id payload sig_key).set k
        ((LinkPacket.write mac phase id payload sig_key).getD k 0 ^^^ 2 ^ tb)) = none := by
  have hpb : LinkPhase.toBits phase ≤ 2 := by cases phase <;> simp [LinkPhase.toBits]
  have ht : signPayload mac payload sig_key < 2 ^ 64 := signPayload_lt mac payload sig_key
  rw [LinkPacket.write_eq]
  by_cases hpl : payload = []
  · subst hpl
    apply LinkPacket.readFrame_short
    simp [List.length_set]
  · interval_cases k
    · simp only [List.getD_cons_zero, List.set_cons_zero]
      rw [LinkPacket.readFrame_cons mac sig_key _ _ _ _ _ payload hpl]
      have htb2 : tb < 2 := h0 rfl
      have hbk : (LinkPhase.toBits phase * 64 + id % 16 * 4 + signPayload mac payload sig_key / 2 ^ 62) < 256 := by omega
      have hbk' : (LinkPhase.toBits phase * 64 + id % 16 * 4 + signPayload mac payload sig_key / 2 ^ 62) ^^^ 2 ^ tb < 256 := xor_byte_lt _ hbk tb htb
      have hlow : ((LinkPhase.toBits phase * 64 + id % 16 * 4 + signPayload mac payload sig_key / 2 ^ 62) ^^^ 2 ^ tb) % 4 = (LinkPhase.toBits phase * 64 + id % 16 * 4 + signPayload mac payload sig_key / 2 ^ 62) % 4 ^^^ 2 ^ tb := xor_low2 _ tb htb2
      have hne : (LinkPhase.toBits phase * 64 + id % 16 * 4 + signPayload mac payload sig_key / 2 ^ 62) % 4 ^^^ 2 ^ tb ≠ (LinkPhase.toBits phase * 64 + id % 16 * 4 + signPayload mac payload sig_key / 2 ^ 62) % 4 := xor_flip_ne _ tb
      have hd4 : (LinkPhase.toBits phase * 64 + id % 16 * 4 + signPayload mac payload sig_key / 2 ^ 62) % 4 ^^^ 2 ^ tb < 4 := by
        have h1 : (LinkPhase.toBits phase * 64 + id % 16 * 4 + signPayload mac payload sig_key / 2 ^ 62) % 4 < 2 ^ 2 := by omega
        have h2 : (2 : Nat) ^ tb < 2 ^ 2 := by
          interval_cases tb <;> norm_num
        have h3 := Nat.xor_lt_two_pow h1 h2
        omega
      rw [if_neg ?_]
      generalize hgen : (LinkPhase.toBits phase * 64 + id % 16 * 4 + signPayload mac payload sig_key / 2 ^ 62) % 4 ^^^ 2 ^ tb = d at hlow hne hd4
      generalize (LinkPhase.toBits phase * 64 + id % 16 * 4 + signPayload mac payload sig_key / 2 ^ 62) ^^^ 2 ^ tb = c at hbk' hlow
      intro hcond
      omega
    · simp only [List.getD_cons_zero, List.getD_cons_succ, List.set_cons_zero,
        List.set_cons_succ]
      rw [LinkPacket.readFrame_cons mac sig_key _ _ _ _ _ payload hpl]
      have hbk : (signPayload mac payload sig_key / 2 ^ 54 % 256) < 256 := by omega
      have hbk' : (signPayload mac payload sig_key / 2 ^ 54 % 256) ^^^ 2 ^ tb < 256 := xor_byte_lt _ hbk tb htb
      have hne : (signPayload mac payload sig_key / 2 ^ 54 % 256) ^^^ 2 ^ tb ≠ (signPayload mac payload sig_key / 2 ^ 54 % 256) := xor_flip_ne _ tb
      rw [if_neg ?_]
      generalize (signPayload mac payload sig_key / 2 ^ 54 % 256) ^^^ 2 ^ tb = d at hbk' hne
      intro hcond
      omega
    · simp only [List.getD_cons_zero, List.getD_cons_succ, List.set_cons_zero,
        List.set_cons_succ]
      rw [LinkPacket.readFrame_cons mac sig_key _ _ _ _ _ payload hpl]
      have hbk : (signPayload mac payload sig_key / 2 ^ 46 % 256) < 256 := by omega
      have hbk' : (signPayload mac payload sig_key / 2 ^ 46 % 256) ^^^ 2 ^ tb < 256 := xor_byte_lt _ hbk tb htb
      have hne : (signPayload mac payload sig_key / 2 ^ 46 % 256) ^^^ 2 ^ tb ≠ (signPayload mac payload sig_key / 2 ^ 46 % 256) := xor_flip_ne _ tb
      rw [if_neg ?_]
      generalize (signPayload mac payload sig_key / 2 ^ 46 % 256) ^^^ 2 ^ tb = d at hbk' hne
      intro hcond
      omega
    · simp only [List.getD_cons_zero, List.getD_cons_succ, List.set_cons_zero,
        List.set_cons_succ]
      rw [LinkPacket.readFrame_cons mac sig_key _ _ _ _ _ payload hpl]
      have hbk : (signPayload mac payload sig_key / 2 ^ 38 % 256) < 256 := by omega
      have hbk' : (signPayload mac payload sig_key / 2 ^ 38 % 256) ^^^ 2 ^ tb < 256 := xor_byte_lt _ hbk tb htb
      have hne : (signPayload mac payload sig_key / 2 ^ 38 % 256) ^^^ 2 ^ tb ≠ (signPayload mac payload sig_key / 2 ^ 38 % 256) := xor_flip_ne _ tb
      rw [if_neg ?_]
      generalize (signPayload mac payload sig_key / 2 ^ 38 % 256) ^^^ 2 ^ tb = d at hbk' hne
      intro hcond
      omega
    · simp only [List.getD_cons_zero, List.getD_cons_succ, List.set_cons_zero,
        List.set_cons_succ]
      rw [LinkPacket.readFrame_cons mac sig_key _ _ _ _ _ payload hpl]
      have hbk : (signPayload mac payload sig_key / 2 ^ 30 % 256) < 256 := by omega
      have hbk' : (signPayload mac payload sig_key / 2 ^ 30 % 256) ^^^ 2 ^ tb < 256 := xor_byte_lt _ hbk tb htb
      have hne : (signPayload mac payload sig_key / 2 ^ 30 % 256) ^^^ 2 ^ tb ≠ (signPayload mac payload sig_key / 2 ^ 30 % 256) := xor_flip_ne _ tb
      rw [if_neg ?_]
      generalize (signPayload mac payload sig_key / 2 ^ 30 % 256) ^^^ 2 ^ tb = d at hbk' hne
      intro hcond
      omega

/-- Replacing the payload of an emitted frame (keeping the 5-byte header):
the frame is accepted exactly when the recomputed HMAC of the new payload
agrees with the original one on the high 34 bits of the 40-bit field.
Flipping a payload bit therefore drops the frame precisely when it changes
those 34 signature bits. -/
theorem LinkPacket.readFrame_modified_payload (mac : List Nat → List Nat → List Nat)
    (phase : LinkPhase) (id : Nat) (payload payload' sig_key : List Nat)
    (hp' : payload' ≠ []) :
    LinkPacket.readFrame mac sig_key
        ((LinkPacket.write mac phase id payload sig_key).take 5 ++ payload') =
      (if signPayload mac payload' sig_key / 2 ^ 30 =
          signPayload mac payload sig_key / 2 ^ 30
       then some (phase, id % 16) else none) := by
  have hpb : LinkPhase.toBits phase ≤ 2 := by cases phase <;> simp [LinkPhase.toBits]
  have ht : signPayload mac payload sig_key < 2 ^ 64 := signPayload_lt mac payload sig_key
  have ht' : signPayload mac payload' sig_key < 2 ^ 64 := signPayload_lt mac payload' sig_key
  have htake : ∀ (a b c d e : Nat) (l : List Nat),
      (a :: b :: c :: d :: e :: l).take 5 = [a, b, c, d, e] := fun _ _ _ _ _ _ => rfl
  rw [LinkPacket.write_eq, htake]
  simp only [List.cons_append, List.nil_append]
  rw [LinkPacket.readFrame_cons mac sig_key _ _ _ _ _ payload' hp']
  have hB0 : LinkPhase.toBits phase * 64 + id % 16 * 4 +
      signPayload mac payload sig_key / 2 ^ 62 < 256 := by omega
  by_cases h : signPayload mac payload' sig_key / 2 ^ 30 =
      signPayload mac payload sig_key / 2 ^ 30
  · rw [if_pos (by omega), if_pos h, Nat.mod_eq_of_lt hB0]
    have hphase : (LinkPhase.toBits phase * 64 + id % 16 * 4 +
        signPayload mac payload sig_key / 2 ^ 62) >>> 6 = LinkPhase.toBits phase := by
      rw [Nat.shiftRight_eq_div_pow]
      omega
    have hid : ((LinkPhase.toBits phase * 64 + id % 16 * 4 +
        signPayload mac payload sig_key / 2 ^ 62) >>> 2) &&& 0xf = id % 16 := by
      rw [Nat.shiftRight_eq_div_pow, show (0xf : Nat) = 2 ^ 4 - 1 by norm_num,
        Nat.and_pow_two_sub_one_eq_mod]
      omega
    rw [hphase, hid]
    cases phase <;> rfl
  · rw [if_neg (by omega), if_neg h]

/-! ## Gateway session-id allocation -/

theorem issuedSensorId_eq (n : Nat) : issuedSensorId n = n % 16 := by
  induction n with
  | zero => rfl
  | succ n ih =>
    rw [issuedSensorId, ih, gatewayStepSensorId,
      show (0x0F : Nat) = 2 ^ 4 - 1 by norm_num, Nat.and_pow_two_sub_one_eq_mod]
    omega

/-! ## Gateway `SensorData` handling -/

/-- A byte chunk that decodes to exactly one `SensorValuePoint`, consuming
exactly itself, at every stream position. -/
def DecodesToPoint (chunk : List Nat) (p : SensorValuePoint) : Prop :=
  ∀ (rest : List Nat) (off : Nat),
    SensorValuePoint.decode ⟨chunk ++ rest, off⟩ = .ok (p, ⟨rest, off + chunk.length⟩)

theorem sensorDataLoop_run (chunks : List (List Nat)) (pts : List SensorValuePoint)
    (hcp : List.Forall₂ DecodesToPoint chunks pts) :
    ∀ (snk : ValueSink) (rest : List Nat) (off : Nat),
    sensorDataLoop pts.length snk ⟨chunks.flatten ++ rest, off⟩ =
      .ok (pts.foldl ValueSink.push snk, ⟨rest, off + (chunks.map List.length).sum⟩) := by
  induction hcp with
  | nil =>
    intro snk rest off
    simp [sensorDataLoop]
  | cons h1 h2 ih =>
    rename_i c p chunks' pts'
    intro snk rest off
    simp only [List.length_cons, List.flatten_cons, List.append_assoc, sensorDataLoop]
    simp only [h1 (chunks'.flatten ++ rest) off, ih (snk.push p) rest (off + c.length)]
    simp [List.foldl_cons]
    omega

/-- `app_on_sensor_data` on a stream carrying exactly `n` encoded value
points: all `n` records are decoded (published while the sink has capacity,
dropped otherwise) and then exactly one `Ack` packet is emitted. -/
theorem app_on_sensor_data_run (chunks : List (List Nat)) (pts : List SensorValuePoint)
    (hcp : List.Forall₂ DecodesToPoint chunks pts) (snk : ValueSink)
    (rest : List Nat) (off : Nat) :
    app_on_sensor_data pts.length snk ⟨chunks.flatten ++ rest, off⟩ =
      .ok ((pts.foldl ValueSink.push snk, [Packet.encode .ack]),
        ⟨rest, off + (chunks.map List.length).sum⟩) := by
  unfold app_on_sensor_data
  rw [sensorDataLoop_run chunks pts hcp snk rest off]

/-- `HandshakeStart` with a forward-compatibility tail: `tail_len` trailing
bytes are discarded and the packet is consumed in full. -/
theorem decodeHandshakeStart_tail (mj mn t : Nat) (hmj : mj < 256) (hmn : mn < 256)
    (ht : t < 2 ^ 32) (tail rest : List Nat) (htail : tail.length = t) (off : Nat) :
    decodeHandshakeStart ⟨mj :: mn :: (ulebEncode t ++ (tail ++ rest)), off⟩ =
      .ok ((mj, mn), ⟨rest, off + 2 + (ulebEncode t).length + t⟩) := by
  have hdisc : ∀ o : Nat, readDiscard t ⟨tail ++ rest, o⟩ = .ok ((), ⟨rest, o + t⟩) := by
    intro o
    rw [readDiscard_ok t ⟨tail ++ rest, o⟩ (by simp [htail]), List.drop_left' htail]
  simp only [decodeHandshakeStart, readByte_cons, Nat.mod_eq_of_lt hmj, Nat.mod_eq_of_lt hmn,
    decodeU32_roundtrip t ht, hdisc]

/-- A concrete stand-in MAC used only to instantiate the link-layer theorems
at closed inputs; the real HMAC-SHA256 lives in the external `hmac`/`sha2`
crates and all link-layer theorems hold for an arbitrary `mac`. -/
def constMac : List Nat → List Nat → List Nat := fun _ _ => List.replicate 32 0

/-! ## The claims -/

/-- C1, counterexample to the unqualified round trip: a `HandshakeEnd` with
`major = 2` and `epoch = 1` does not survive encode/decode — the decoder
skips the epoch of an unknown major and returns `epoch = 0`. -/
theorem C1_counterexample :
    Packet.decode ⟨Packet.encode (.handshakeEnd 2 0 1), 0⟩ ≠
      .ok (.handshakeEnd 2 0 1, ⟨[], (Packet.encode (.handshakeEnd 2 0 1)).length⟩) := by
  have hu1 : ulebEncode 1 = [1] := ulebEncode_small 1 (by norm_num)
  have henc : Packet.encode (.handshakeEnd 2 0 1) = [1, 2, 0, 1, 1] := by
    simp [Packet.encode, encodeU8, hu1]
  have hfut := decodeHandshakeEnd_future 2 0 1 (by norm_num) (by norm_num) (by norm_num)
    (by norm_num) [1] [] rfl 1
  rw [hu1] at hfut
  simp only [List.cons_append, List.nil_append, List.length_cons, List.length_nil] at hfut
  have hdec : Packet.decode ⟨[1, 2, 0, 1, 1], 0⟩ = .ok (.handshakeEnd 2 0 0, ⟨[], 5⟩) := by
    simp only [Packet.decode, readByte_cons, Nat.reduceMod]
    rw [hfut]
    rfl
  rw [henc, hdec]
  simp

/-- C1 (amended): the codec round trip holds for every primitive (`u8`,
`u32`, `u64`, `i64`, `f32`) and every `Packet` variant, with the offset
advancing by exactly the byte length of the encoding — except that a
`HandshakeEnd` only round-trips when `major = 1` (see the counterexample). -/
theorem C1_codec_roundtrip :
    (∀ v : Nat, v < 256 → ∀ (rest : List Nat) (off : Nat),
      decodeU8 ⟨encodeU8 v ++ rest, off⟩ = .ok (v, ⟨rest, off + (encodeU8 v).length⟩)) ∧
    (∀ v : Nat, v < 2 ^ 32 → ∀ (rest : List Nat) (off : Nat),
      decodeU32 ⟨ulebEncode v ++ rest, off⟩ = .ok (v, ⟨rest, off + (ulebEncode v).length⟩)) ∧
    (∀ v : Nat, v < 2 ^ 64 → ∀ (rest : List Nat) (off : Nat),
      decodeU64 ⟨ulebEncode v ++ rest, off⟩ = .ok (v, ⟨rest, off + (ulebEncode v).length⟩)) ∧
    (∀ p : Nat, p < 2 ^ 64 → ∀ (rest : List Nat) (off : Nat),
      decodeI64 ⟨slebEncode p ++ rest, off⟩ = .ok (p, ⟨rest, off + (slebEncode p).length⟩)) ∧
    (∀ p : Nat, p < 2 ^ 32 → ∀ (rest : List Nat) (off : Nat),
      decodeF32 ⟨encodeF32 p ++ rest, off⟩ = .ok (p, ⟨rest, off + (encodeF32 p).length⟩)) ∧
    (∀ mj mn : Nat, mj < 256 → mn < 256 → ∀ (rest : List Nat) (off : Nat),
      Packet.decode ⟨Packet.encode (.handshakeStart mj mn) ++ rest, off⟩ =
        .ok (.handshakeStart mj mn,
          ⟨rest, off + (Packet.encode (.handshakeStart mj mn)).length⟩)) ∧
    (∀ mn e : Nat, mn < 256 → e < 2 ^ 64 → ∀ (rest : List Nat) (off : Nat),
      Packet.decode ⟨Packet.encode (.handshakeEnd 1 mn e) ++ rest, off⟩ =
        .ok (.handshakeEnd 1 mn e,
          ⟨rest, off + (Packet.encode (.handshakeEnd 1 mn e)).length⟩)) ∧
    (∀ (rest : List Nat) (off : Nat),
      Packet.decode ⟨Packet.encode .ack ++ rest, off⟩ =
        .ok (.ack, ⟨rest, off + (Packet.encode .ack).length⟩)) ∧
    (∀ c : Nat, c < 256 → ∀ (rest : List Nat) (off : Nat),
      Packet.decode ⟨Packet.encode (.sensorData c) ++ rest, off⟩ =
        .ok (.sensorData c, ⟨rest, off + (Packet.encode (.sensorData c)).length⟩)) ∧
    (∀ (rest : List Nat) (off : Nat),
      Packet.decode ⟨Packet.encode .resetConnection ++ rest, off⟩ =
        .ok (.resetConnection, ⟨rest, off + (Packet.encode .resetConnection).length⟩)) :=
  ⟨fun v hv rest off => decodeU8_roundtrip v hv rest off,
   fun v hv rest off => decodeU32_roundtrip v hv rest off,
   fun v hv rest off => decodeU64_roundtrip v hv rest off,
   fun p hp rest off => decodeI64_roundtrip p hp rest off,
   fun p hp rest off => decodeF32_roundtrip p hp rest off,
   fun mj mn hmj hmn rest off => decodePacket_handshakeStart mj mn hmj hmn rest off,
   fun mn e hmn he rest off => decodePacket_handshakeEnd mn e hmn he rest off,
   decodePacket_ack,
   fun c hc rest off => decodePacket_sensorData c hc rest off,
   decodePacket_resetConnection⟩

/-- C1 witness: the round trip at `u8 = 42` and at `HandshakeStart 1 21`. -/
theorem C1_codec_roundtrip_witness :
    decodeU8 ⟨encodeU8 42 ++ [7], 3⟩ = .ok (42, ⟨[7], 3 + (encodeU8 42).length⟩) ∧
    Packet.decode ⟨Packet.encode (.handshakeStart 1 21) ++ [9], 0⟩ =
      .ok (.handshakeStart 1 21, ⟨[9], 0 + (Packet.encode (.handshakeStart 1 21)).length⟩) :=
  ⟨C1_codec_roundtrip.1 42 (by decide) [7] 3,
   C1_codec_roundtrip.2.2.2.2.2.1 1 21 (by decide) (by decide) [9] 0⟩

/-- C2, counterexample to "overlong encodings are rejected": five
continuation bytes exhaust the `u32` budget, yet the decoder returns
`Ok` (with the truncated value) instead of `decoding_error()`. -/
theorem C2_counterexample :
    decodeU32 ⟨[128, 128, 128, 128, 128, 1], 0⟩ = .ok (0, ⟨[1], 5⟩) := rfl

/-- C2 (amended): on an input whose first `max` bytes (5 for `u32`, 10 for
`u64`/`i64`) all carry the continuation bit, the decoder does NOT reject:
it returns `Ok` with the accumulated (truncated) value after consuming
exactly `max` bytes, leaving the rest of the stream unread. -/
theorem C2_overlong_truncation :
    (∀ (bs rest : List Nat) (off : Nat), bs.length = 5 → (∀ b ∈ bs, 128 ≤ b % 256) →
      ∃ v, decodeU32 ⟨bs ++ rest, off⟩ = .ok (v, ⟨rest, off + 5⟩)) ∧
    (∀ (bs rest : List Nat) (off : Nat), bs.length = 10 → (∀ b ∈ bs, 128 ≤ b % 256) →
      ∃ v, decodeU64 ⟨bs ++ rest, off⟩ = .ok (v, ⟨rest, off + 10⟩)) ∧
    (∀ (bs rest : List Nat) (off : Nat), bs.length = 10 → (∀ b ∈ bs, 128 ≤ b % 256) →
      ∃ v, decodeI64 ⟨bs ++ rest, off⟩ = .ok (v, ⟨rest, off + 10⟩)) :=
  ⟨fun bs rest off h1 h2 => uleb_loop_overlong (2 ^ 32) 5 0 0 bs rest off h1 h2,
   fun bs rest off h1 h2 => uleb_loop_overlong (2 ^ 64) 10 0 0 bs rest off h1 h2,
   fun bs rest off h1 h2 => sleb_loop_overlong 10 0 0 bs rest off h1 h2⟩

/-- C2 witness: a concrete 5-continuation-byte `u32` input is accepted. -/
theorem C2_overlong_truncation_witness :
    ([128, 255, 128, 255, 128] : List Nat).length = 5 ∧
    (∀ b ∈ ([128, 255, 128, 255, 128] : List Nat), 128 ≤ b % 256) ∧
    ∃ v, decodeU32 ⟨[128, 255, 128, 255, 128] ++ [3], 7⟩ = .ok (v, ⟨[3], 7 + 5⟩) :=
  ⟨rfl, by decide,
   C2_overlong_truncation.1 [128, 255, 128, 255, 128] [3] 7 rfl (by decide)⟩

/-- C3, counterexample to "a handshake with `major = 1` is accepted for
every minor": the sensor board rejects `HandshakeEnd` with `minor = 1`. -/
theorem C3_counterexample :
    sensor_on_handshake_end 1 1 77 = .error (.incompatibleProtocol 1 1) := rfl

/-- C3 (amended): the gateway accepts any `minor` under `major = 1` and
rejects any `major ≠ 1` with `IncompatibleProtocol`; the sensor board is
stricter than the spec says: it requires `major = 1` AND `minor = 0`,
failing with `IncompatibleProtocol` on any newer minor. -/
theorem C3_version_policy :
    (∀ minor epoch : Nat, gatewayHandshakeCycle 1 minor epoch = (.uplink, none)) ∧
    (∀ major minor epoch : Nat, major ≠ 1 →
      gatewayHandshakeCycle major minor epoch =
        (.handshake, some (.incompatibleProtocol major minor))) ∧
    (∀ epoch : Nat, sensor_on_handshake_end 1 0 epoch = .ok epoch) ∧
    (∀ major minor epoch : Nat, major ≠ 1 ∨ minor ≠ 0 →
      sensor_on_handshake_end major minor epoch =
        .error (.incompatibleProtocol major minor)) := by
  refine ⟨?_, ?_, ?_, ?_⟩
  · intro minor epoch
    simp [gatewayHandshakeCycle, app_on_handshake_start, PROTOCOL_VERSION_MAJOR]
  · intro major minor epoch h
    simp [gatewayHandshakeCycle, app_on_handshake_start, PROTOCOL_VERSION_MAJOR, h]
  · intro epoch
    simp [sensor_on_handshake_end, PROTOCOL_VERSION_MAJOR, PROTOCOL_VERSION_MINOR]
  · intro major minor epoch h
    rw [sensor_on_handshake_end, if_pos]
    simpa [PROTOCOL_VERSION_MAJOR, PROTOCOL_VERSION_MINOR] using h

/-- C3 witness: the gateway rejects `major = 2` and the sensor board
rejects `minor = 3`. -/
theorem C3_version_policy_witness :
    ((2 : Nat) ≠ 1 ∧
      gatewayHandshakeCycle 2 5 99 = (.handshake, some (.incompatibleProtocol 2 5))) ∧
    ((1 : Nat) ≠ 1 ∨ (3 : Nat) ≠ 0) ∧
    sensor_on_handshake_end 1 3 9 = .error (.incompatibleProtocol 1 3) :=
  ⟨⟨by decide, C3_version_policy.2.1 2 5 99 (by decide)⟩,
   ⟨by decide, C3_version_policy.2.2.2 1 3 9 (by decide)⟩⟩

/-- C4, counterexample to "a frame produced by `write` is accepted by
`read` for EVERY payload": with an empty payload the emitted frame is
5 bytes and `read` drops it as too short. -/
theorem C4_counterexample :
    (LinkPacket.write constMac .handshake 5 [] [7]).length = 5 ∧
    LinkPacket.readFrame constMac [7] (LinkPacket.write constMac .handshake 5 [] [7]) =
      none := by
  constructor
  · rw [LinkPacket.write_eq]
    rfl
  · exact LinkPacket.readFrame_short constMac [7] _ (by rw [LinkPacket.write_eq]; simp)

/-- C4 (amended): for every MAC function, key, phase, id and NON-EMPTY
payload, `read` accepts the frame `write` produced and returns the phase,
the 4-bit id and the payload verbatim; flipping any of the 34 transmitted
signature bits makes `read` drop the frame; replacing the payload is
accepted iff the recomputed 34-bit truncated MAC coincides with the
original one (so any payload change that alters those bits is dropped);
frames shorter than 6 bytes are always dropped — in particular the empty
payload does not round-trip (see the counterexample). -/
theorem C4_link_auth :
    (∀ (mac : List Nat → List Nat → List Nat) (phase : LinkPhase) (id : Nat)
        (payload sig_key : List Nat), payload ≠ [] →
      LinkPacket.readFrame mac sig_key (LinkPacket.write mac phase id payload sig_key) =
          some (phase, id % 16) ∧
        LinkPacket.getPayload (LinkPacket.write mac phase id payload sig_key) = payload) ∧
    (∀ (mac : List Nat → List Nat → List Nat) (phase : LinkPhase) (id : Nat)
        (payload sig_key : List Nat) (k tb : Nat), k < 5 → tb < 8 → (k = 0 → tb < 2) →
      LinkPacket.readFrame mac sig_key
        ((LinkPacket.write mac phase id payload sig_key).set k
          ((LinkPacket.write mac phase id payload sig_key).getD k 0 ^^^ 2 ^ tb)) = none) ∧
    (∀ (mac : List Nat → List Nat → List Nat) (phase : LinkPhase) (id : Nat)
        (payload payload' sig_key : List Nat), payload' ≠ [] →
      LinkPacket.readFrame mac sig_key
          ((LinkPacket.write mac phase id payload sig_key).take 5 ++ payload') =
        (if signPayload mac payload' sig_key / 2 ^ 30 =
            signPayload mac payload sig_key / 2 ^ 30
         then some (phase, id % 16) else none)) ∧
    (∀ (mac : List Nat → List Nat → List Nat) (sig_key bytes : List Nat),
      bytes.length < 6 → LinkPacket.readFrame mac sig_key bytes = none) :=
  ⟨fun mac phase id payload sig_key hp =>
      LinkPacket.read_write_roundtrip mac phase id payload sig_key hp,
   fun mac phase id payload sig_key k tb hk htb h0 =>
      LinkPacket.readFrame_flipped_sigbit mac phase id payload sig_key k tb hk htb h0,
   fun mac phase id payload payload' sig_key hp' =>
      LinkPacket.readFrame_modified_payload mac phase id payload payload' sig_key hp',
   fun mac sig_key bytes h => LinkPacket.readFrame_short mac sig_key bytes h⟩

/-- C4 witness: the accept round trip at a concrete MAC, key and payload. -/
theorem C4_link_auth_witness :
    ([1, 2, 3] : List Nat) ≠ [] ∧
    (LinkPacket.readFrame constMac [9] (LinkPacket.write constMac .data 21 [1, 2, 3] [9]) =
        some (.data, 21 % 16) ∧
      LinkPacket.getPayload (LinkPacket.write constMac .data 21 [1, 2, 3] [9]) = [1, 2, 3]) :=
  ⟨by decide, C4_link_auth.1 constMac .data 21 [1, 2, 3] [9] (by decide)⟩

/-- C5 (confirmed): every emitted frame is exactly `5 + payload_len` bytes;
byte 0 is `phase_bits << 6 | (id & 0x0F) << 2 |` the top 2 bits of the
40-bit truncated MAC (`signPayload _ / 2 ^ 24`), bytes 1–4 carry the next
32 signature bits, the payload follows verbatim, and the low 6 bits of the
40-bit field are discarded. -/
theorem C5_wire_layout :
    ∀ (mac : List Nat → List Nat → List Nat) (phase : LinkPhase) (id : Nat)
      (payload sig_key : List Nat),
    (LinkPacket.write mac phase id payload sig_key).length = 5 + payload.length ∧
    LinkPacket.write mac phase id payload sig_key =
      (phase.toBits * 2 ^ 6 + id % 16 * 2 ^ 2 +
        signPayload mac payload sig_key / 2 ^ 24 / 2 ^ 38) ::
      (signPayload mac payload sig_key / 2 ^ 24 / 2 ^ 30 % 2 ^ 8) ::
      (signPayload mac payload sig_key / 2 ^ 24 / 2 ^ 22 % 2 ^ 8) ::
      (signPayload mac payload sig_key / 2 ^ 24 / 2 ^ 14 % 2 ^ 8) ::
      (signPayload mac payload sig_key / 2 ^ 24 / 2 ^ 6 % 2 ^ 8) :: payload := by
  intro mac phase id payload sig_key
  refine ⟨by rw [LinkPacket.write_eq]; simp only [List.length_cons]; omega, ?_⟩
  rw [LinkPacket.write_eq]
  simp only [List.cons.injEq, and_true]
  refine ⟨by omega, by omega, by omega, by omega, by omega⟩

/-- C6, counterpart of the declared-length discipline: a `HandshakeStart`
with `tail_len > 0` consumes exactly `tail_len` extra bytes; a known-kind
`SensorValue` consumes exactly `value_len` payload bytes after the length
field (residual bytes discarded); an unknown kind consumes exactly its
declared `value_len`; and a known kind whose declared `value_len` is
smaller than the 4-byte typed body fails with `decoding_error()`. -/
theorem C6_declared_lengths :
    (∀ mj mn t : Nat, mj < 256 → mn < 256 → t < 2 ^ 32 →
      ∀ (tail rest : List Nat), tail.length = t → ∀ off : Nat,
      decodeHandshakeStart ⟨mj :: mn :: (ulebEncode t ++ (tail ++ rest)), off⟩ =
        .ok ((mj, mn), ⟨rest, off + 2 + (ulebEncode t).length + t⟩)) ∧
    (∀ kind L : Nat, kind ≤ 3 → 4 ≤ L → L < 2 ^ 32 →
      ∀ (b0 b1 b2 b3 : Nat) (junk rest : List Nat), junk.length = L - 4 → ∀ off : Nat,
      SensorValue.decode
          ⟨ulebEncode kind ++ (ulebEncode L ++ (b0 :: b1 :: b2 :: b3 :: (junk ++ rest))),
            off⟩ =
        .ok (knownKind kind
            (b0 % 256 + b1 % 256 * 2 ^ 8 + b2 % 256 * 2 ^ 16 + b3 % 256 * 2 ^ 24),
          ⟨rest, off + 1 + (ulebEncode L).length + L⟩)) ∧
    (∀ kind L : Nat, 4 ≤ kind → kind < 2 ^ 32 → L < 2 ^ 32 →
      ∀ (junk rest : List Nat), junk.length = L → ∀ off : Nat,
      SensorValue.decode ⟨ulebEncode kind ++ (ulebEncode L ++ (junk ++ rest)), off⟩ =
        .ok (.unknown kind L,
          ⟨rest, off + (ulebEncode kind).length + (ulebEncode L).length + L⟩)) ∧
    (∀ kind L : Nat, kind ≤ 3 → L < 4 →
      ∀ (b0 b1 b2 b3 : Nat) (rest : List Nat) (off : Nat),
      SensorValue.decode
          ⟨ulebEncode kind ++ (ulebEncode L ++ (b0 :: b1 :: b2 :: b3 :: rest)), off⟩ =
        .error (.decoding, ⟨rest, off + 1 + (ulebEncode L).length + 4⟩)) :=
  ⟨fun mj mn t hmj hmn ht tail rest htail off =>
      decodeHandshakeStart_tail mj mn t hmj hmn ht tail rest htail off,
   fun kind L hk hL4 hL b0 b1 b2 b3 junk rest hjunk off =>
      SensorValue.decode_known kind L hk hL4 hL b0 b1 b2 b3 junk rest hjunk off,
   fun kind L hk hkind hL junk rest hjunk off =>
      SensorValue.decode_unknown kind L hk hkind hL junk rest hjunk off,
   fun kind L hk hL4 b0 b1 b2 b3 rest off =>
      SensorValue.decode_known_short kind L hk hL4 b0 b1 b2 b3 rest off⟩

/-- C6 witness: a `HandshakeStart` with a 3-byte tail is consumed in full,
and a known kind declaring `value_len = 2` fails. -/
theorem C6_declared_lengths_witness :
    (([202, 254, 153] : List Nat).length = 3 ∧
      decodeHandshakeStart ⟨1 :: 21 :: (ulebEncode 3 ++ ([202, 254, 153] ++ [9])), 0⟩ =
        .ok ((1, 21), ⟨[9], 0 + 2 + (ulebEncode 3).length + 3⟩)) ∧
    SensorValue.decode ⟨ulebEncode 0 ++ (ulebEncode 2 ++ (7 :: 8 :: 9 :: 10 :: [11])), 4⟩ =
      .error (.decoding, ⟨[11], 4 + 1 + (ulebEncode 2).length + 4⟩) :=
  ⟨⟨by decide,
    C6_declared_lengths.1 1 21 3 (by decide) (by decide) (by decide) [202, 254, 153] [9]
      (by decide) 0⟩,
   C6_declared_lengths.2.2.2 0 2 (by decide) (by decide) 7 8 9 10 [11] 4⟩

/-- C7 (confirmed): the gateway's current sensor id starts at 15, each
accepted handshake steps it by `wrapping_add(1) & 0x0F`, and the issued ids
are exactly `0, 1, 2, …, 15, 0, 1, …` — every one of them below 16. -/
theorem C7_session_ids :
    gatewayInitialSensorId = 15 ∧
    (∀ id : Nat, gatewayStepSensorId id = (id + 1) % 256 % 16) ∧
    (∀ n : Nat, issuedSensorId n = n % 16) ∧
    (∀ n : Nat, issuedSensorId n < 16) :=
  ⟨rfl,
   fun id => by
     rw [gatewayStepSensorId, show (0x0F : Nat) = 2 ^ 4 - 1 by norm_num,
       Nat.and_pow_two_sub_one_eq_mod],
   issuedSensorId_eq,
   fun n => by rw [issuedSensorId_eq]; omega⟩

/-- C8 (confirmed): on a stream carrying exactly `n` encoded value points,
`app_on_sensor_data` with `count = n` decodes all `n` records (each one
consumed from the stream whether or not the sink has room: a full sink
drops the value) and then emits exactly one `Ack`; and the sink drops a
pushed value exactly when it is at capacity. -/
theorem C8_ack_ordering :
    (∀ (chunks : List (List Nat)) (pts : List SensorValuePoint),
      List.Forall₂ DecodesToPoint chunks pts →
      ∀ (snk : ValueSink) (rest : List Nat) (off : Nat),
      app_on_sensor_data pts.length snk ⟨chunks.flatten ++ rest, off⟩ =
        .ok ((pts.foldl ValueSink.push snk, [Packet.encode .ack]),
          ⟨rest, off + (chunks.map List.length).sum⟩)) ∧
    (∀ (snk : ValueSink) (v : SensorValuePoint), ¬ snk.vals.length < snk.cap →
      snk.push v = snk) :=
  ⟨fun chunks pts hcp snk rest off => app_on_sensor_data_run chunks pts hcp snk rest off,
   fun snk v h => by simp [ValueSink.push, h]⟩

/-- C8 witness: two encoded points, a capacity-1 sink: both records are
decoded (the second is dropped by the full sink), one `Ack` comes out. -/
theorem C8_ack_ordering_witness :
    List.Forall₂ DecodesToPoint
      [(⟨.temperature 7, 3⟩ : SensorValuePoint).encode,
        (⟨.unknown 999 0, 9⟩ : SensorValuePoint).encode]
      [⟨.temperature 7, 3⟩, ⟨.unknown 999 0, 9⟩] ∧
    app_on_sensor_data 2 ⟨1, []⟩
        ⟨[(⟨.temperature 7, 3⟩ : SensorValuePoint).encode,
          (⟨.unknown 999 0, 9⟩ : SensorValuePoint).encode].flatten ++ [5], 0⟩ =
      .ok ((([⟨.temperature 7, 3⟩, ⟨.unknown 999 0, 9⟩] :
            List SensorValuePoint).foldl ValueSink.push ⟨1, []⟩, [Packet.encode .ack]),
        ⟨[5], 0 + ([(⟨.temperature 7, 3⟩ : SensorValuePoint).encode,
          (⟨.unknown 999 0, 9⟩ : SensorValuePoint).encode].map List.length).sum⟩) := by
  have h1 : DecodesToPoint (⟨.temperature 7, 3⟩ : SensorValuePoint).encode
      ⟨.temperature 7, 3⟩ :=
    fun rest off =>
      SensorValuePoint.roundtrip ⟨.temperature 7, 3⟩
        (by simp [SensorValuePoint.WF, SensorValue.WF]) rest off
  have h2 : DecodesToPoint (⟨.unknown 999 0, 9⟩ : SensorValuePoint).encode
      ⟨.unknown 999 0, 9⟩ :=
    fun rest off =>
      SensorValuePoint.roundtrip ⟨.unknown 999 0, 9⟩
        (by simp [SensorValuePoint.WF, SensorValue.WF]) rest off
  have hcp : List.Forall₂ DecodesToPoint
      [(⟨.temperature 7, 3⟩ : SensorValuePoint).encode,
        (⟨.unknown 999 0, 9⟩ : SensorValuePoint).encode]
      [⟨.temperature 7, 3⟩, ⟨.unknown 999 0, 9⟩] := .cons h1 (.cons h2 .nil)
  exact ⟨hcp,
    C8_ack_ordering.1
      [(⟨.temperature 7, 3⟩ : SensorValuePoint).encode,
        (⟨.unknown 999 0, 9⟩ : SensorValuePoint).encode]
      [⟨.temperature 7, 3⟩, ⟨.unknown 999 0, 9⟩] hcp ⟨1, []⟩ [5] 0⟩

/-- C9 (confirmed): an unknown `Packet` discriminant (first byte not in
`{0, 1, 2, 3, 4}`) yields `decoding_error()` after consuming exactly one
byte: the offset advances by 1 and the rest of the stream is untouched. -/
theorem C9_unknown_discriminant :
    ∀ b : Nat, 5 ≤ b → b < 256 → ∀ (rest : List Nat) (off : Nat),
      Packet.decode ⟨b :: rest, off⟩ = .error (.decoding, ⟨rest, off + 1⟩) :=
  fun b hb5 hb rest off => Packet.decode_unknown_tag b hb5 hb rest off

/-- C9 witness: the repository's own test vector `0x99 0x01 0x15 0x00`. -/
theorem C9_unknown_discriminant_witness :
    Packet.decode ⟨153 :: [1, 21, 0], 0⟩ = .error (.decoding, ⟨[1, 21, 0], 0 + 1⟩) :=
  C9_unknown_discriminant 153 (by decide) (by decide) [1, 21, 0] 0

/-- C10 (confirmed): a `HandshakeEnd` with `major ≠ 1` decodes without
reading an epoch — the returned epoch is exactly 0 — and the whole declared
tail is read and discarded, so the packet is consumed in full. -/
theorem C10_future_handshake_end :
    ∀ mj mn t : Nat, mj ≠ 1 → mj < 256 → mn < 256 → t < 2 ^ 32 →
    ∀ (tail rest : List Nat), tail.length = t → ∀ off : Nat,
      decodeHandshakeEnd ⟨mj :: mn :: (ulebEncode t ++ (tail ++ rest)), off⟩ =
        .ok ((mj, mn, 0), ⟨rest, off + 2 + (ulebEncode t).length + t⟩) :=
  fun mj mn t hmj1 hmj hmn ht tail rest htail off =>
    decodeHandshakeEnd_future mj mn t hmj1 hmj hmn ht tail rest htail off

/-- C10 witness: the repository's test vector `02 03 02 ba be`. -/
theorem C10_future_handshake_end_witness :
    (2 : Nat) ≠ 1 ∧
    decodeHandshakeEnd ⟨2 :: 3 :: (ulebEncode 2 ++ ([186, 190] ++ [])), 0⟩ =
      .ok ((2, 3, 0), ⟨[], 0 + 2 + (ulebEncode 2).length + 2⟩) :=
  ⟨by decide,
   C10_future_handshake_end 2 3 2 (by decide) (by decide) (by decide) (by decide)
     [186, 190] [] (by decide) 0⟩

end SensorSensei
